import Mathlib

/-!
# Gazelle runtime, shallow embedding

A shallow embedding of the Gazelle parser runtime (`src/runtime/interpreter.c`,
`src/runtime/bc_read_stream.c`, `src/runtime/dynarray.h`), used to settle the
claims of the specification against the code.

Modelling conventions:
* Machine integers are `Nat` (with explicit `% 2^32` where the C's 32-bit
  overflow matters, namely in the dynarray capacity arithmetic).
* Interned strings (`char *` into the grammar's string table) are `Nat`
  identifiers; a NULL terminal name (the EOF sentinel) is `Option.none`,
  so terminal names are `Option Nat`.  Pointer equality on interned strings
  becomes equality of identifiers.
* Pointers into the grammar's arrays (RTN/GLA/IntFA, their states) become
  indices; a dereference is a list lookup that can fail.
* Fallible code returns `Option`: `none` models an assertion failure or
  undefined behaviour (out-of-bounds access, union misread).  C `assert`s
  are translated to explicit checks returning `none`.
* The C's unbounded loops (`descend_to_gla`, the token-routing loop of
  `process_terminal`, and the loop of `gzl_finish_parse` that pops the
  remaining RTN frames) take an explicit fuel argument; exhausted fuel is
  `none`.
* Callbacks: the engine is modelled with every callback installed; instead of
  calling out, it appends an `Event` to an event trace.  Each event carries a
  `Snapshot` of the fields of the parse state a callback may inspect for the
  watermark invariant (`open_terminal_offset`, the offset of the oldest
  token-buffer entry, and the current offset).
* Input bytes are `Nat`.  The C passes `char` (signed on most ABIs); the
  embedding does not model sign extension of bytes ≥ 0x80, and all concrete
  inputs used below are ≤ 0x7F, where the two coincide.
-/

namespace Gazelle

/-! ## Offsets and terminals (`interpreter.h`) -/

/-- `struct gzl_offset`: byte is 0-based, line/column are 1-based. -/
structure Offset where
  byte : Nat
  line : Nat
  column : Nat
deriving DecidableEq, Repr

/-- `struct gzl_terminal`.  `name = none` models a NULL name (EOF sentinel). -/
structure Terminal where
  name : Option Nat
  offset : Offset
  len : Nat
deriving DecidableEq, Repr

/-- `enum gzl_parse_status`, exactly the six values of `interpreter.h`. -/
inductive ParseStatus where
  | ok
  | error
  | cancelled
  | eof
  | io_error
  | premature_eof_error
deriving DecidableEq, Repr

/-! ## Grammar data model (`interpreter.h`) -/

/-- `struct gzl_intfa_transition`: inclusive byte range and destination state
index. -/
structure IntfaTransition where
  ch_low : Nat
  ch_high : Nat
  dest_state : Nat
deriving DecidableEq, Repr

/-- `struct gzl_intfa_state`: `final` is the accept label (`none` if the state
is not accepting). -/
structure IntfaState where
  final : Option Nat
  transitions : List IntfaTransition
deriving DecidableEq, Repr

/-- `struct gzl_intfa`: the start state is `states[0]`. -/
structure Intfa where
  states : List IntfaState
deriving DecidableEq, Repr

/-- `struct gzl_gla_transition`: `term = none` is the EOF sentinel. -/
structure GlaTransition where
  term : Option Nat
  dest_state : Nat
deriving DecidableEq, Repr

/-- `struct gzl_gla_state`: the `is_final` flag plus union becomes a sum.
A nonfinal state carries the IntFA (index) used to tokenize lookahead and its
transitions; a final state carries the 1-based `transition_offset`
(0 = return from the current RTN). -/
inductive GlaState where
  | nonfinal (intfa : Nat) (transitions : List GlaTransition)
  | final (transition_offset : Nat)
deriving DecidableEq, Repr

/-- `struct gzl_gla`: the start state is `states[0]`. -/
structure Gla where
  states : List GlaState
deriving DecidableEq, Repr

/-- The `transition_type` tag plus `edge` union of
`struct gzl_rtn_transition`. -/
inductive RtnEdge where
  | terminal (name : Nat)
  | nonterm (rtn : Nat)
deriving DecidableEq, Repr

/-- `struct gzl_rtn_transition`.  `dest_state` is a state index within the
owning RTN. -/
structure RtnTransition where
  edge : RtnEdge
  dest_state : Nat
  slotname : Nat
  slotnum : Nat
deriving DecidableEq, Repr

/-- The `lookahead_type` tag plus `d` union of `struct gzl_rtn_state`. -/
inductive Lookahead where
  | hasIntfa (intfa : Nat)
  | hasGla (gla : Nat)
  | hasNeither
deriving DecidableEq, Repr

/-- `struct gzl_rtn_state`. -/
structure RtnState where
  is_final : Bool
  lookahead : Lookahead
  transitions : List RtnTransition
deriving DecidableEq, Repr

/-- `struct gzl_rtn`: the start state is `states[0]`. -/
structure Rtn where
  name : Nat
  num_slots : Nat
  states : List RtnState
deriving DecidableEq, Repr

/-- `struct gzl_grammar`: the three parallel arrays.  `rtns[0]` is the start
symbol. -/
structure Grammar where
  rtns : List Rtn
  glas : List Gla
  intfas : List Intfa
deriving DecidableEq, Repr

def lookupRtnState (g : Grammar) (ri si : Nat) : Option RtnState :=
  (g.rtns.get? ri).bind fun r => r.states.get? si

def lookupGlaState (g : Grammar) (gi si : Nat) : Option GlaState :=
  (g.glas.get? gi).bind fun gl => gl.states.get? si

def lookupIntfaState (g : Grammar) (ii si : Nat) : Option IntfaState :=
  (g.intfas.get? ii).bind fun fa => fa.states.get? si

/-! ## Stack frames and parse state (`interpreter.h`) -/

/-- The `frame_type` tag plus `f` union of `struct gzl_parse_stack_frame`.
An RTN frame stores the RTN index, the current state index and the committed
`rtn_transition` (a value copy of a transition of that RTN, `none` if not
set).  GLA/IntFA frames store the automaton index and current state index. -/
inductive FrameData where
  | rtn (rtn : Nat) (state : Nat) (transition : Option RtnTransition)
  | gla (gla : Nat) (state : Nat)
  | intfa (intfa : Nat) (state : Nat)
deriving DecidableEq, Repr

/-- `enum gzl_frame_type`. -/
inductive FrameTag where
  | rtn
  | gla
  | intfa
deriving DecidableEq, Repr

/-- `struct gzl_parse_stack_frame`. -/
structure Frame where
  data : FrameData
  start_offset : Offset
deriving DecidableEq, Repr

def Frame.tag (f : Frame) : FrameTag :=
  match f.data with
  | FrameData.rtn _ _ _ => FrameTag.rtn
  | FrameData.gla _ _ => FrameTag.gla
  | FrameData.intfa _ _ => FrameTag.intfa

/-- `struct gzl_parse_state`.  The parse stack is a list with the TOP of the
stack at the head (so C's `parse_stack[parse_stack_len-1]` is the head and
`parse_stack[0]`, the bottom, is the last element).  The token buffer keeps
the C's order: index 0 is the oldest entry, appends go at the end. -/
structure ParseState where
  offset : Offset
  open_terminal_offset : Offset
  last_char_was_newline : Bool
  parse_stack : List Frame
  token_buffer : List Terminal
deriving DecidableEq, Repr

/-! ## Callback events -/

/-- The parse-state fields relevant to the watermark invariant, captured at
the instant a callback fires. -/
structure Snapshot where
  open_terminal_offset : Offset
  oldest_buffered_offset : Option Offset
  offset : Offset
deriving DecidableEq, Repr

def snap (s : ParseState) : Snapshot :=
  { open_terminal_offset := s.open_terminal_offset
    oldest_buffered_offset := (s.token_buffer.head?).map Terminal.offset
    offset := s.offset }

inductive EventKind where
  | start_rule (rtn : Nat)
  | end_rule (rtn : Nat)
  | terminal (t : Terminal)
  | error_char (ch : Nat)
  | error_terminal (t : Terminal)
deriving DecidableEq, Repr

structure Event where
  kind : EventKind
  state : Snapshot
deriving DecidableEq, Repr

/-! ## Frame operations (`interpreter.c` lines 65-199) -/

/-- `push_empty_frame`: grows the stack by one frame stamped with the given
start offset.  (The C leaves the union uninitialized and lets the caller fill
it; here the caller passes the filled `FrameData`.)  There is no check of any
stack-depth limit: the push succeeds on every state. -/
def push_empty_frame (s : ParseState) (d : FrameData) (start : Offset) : ParseState :=
  { s with parse_stack := { data := d, start_offset := start } :: s.parse_stack }

/-- `push_intfa_frame`: pushes an IntFA frame positioned at that IntFA's start
state (`states[0]`). -/
def push_intfa_frame (s : ParseState) (ii : Nat) (start : Offset) : ParseState :=
  push_empty_frame s (FrameData.intfa ii 0) start

/-- `push_gla_frame`: pushes a GLA frame positioned at that GLA's start state. -/
def push_gla_frame (s : ParseState) (gi : Nat) (start : Offset) : ParseState :=
  push_empty_frame s (FrameData.gla gi 0) start

/-- `push_rtn_frame`: pushes an RTN frame with no committed transition, at the
RTN's start state, and fires the `start_rule` callback. -/
def push_rtn_frame (s : ParseState) (ri : Nat) (start : Offset) :
    ParseState × List Event :=
  let s1 := push_empty_frame s (FrameData.rtn ri 0 none) start
  (s1, [{ kind := EventKind.start_rule ri, state := snap s1 }])

/-- `push_rtn_frame_for_transition`: commits `t` on the current top RTN frame,
then pushes the callee `t.edge.nonterminal`.  `none` models the union misread
if `t` is not a nonterminal transition, or a non-RTN top frame. -/
def push_rtn_frame_for_transition (s : ParseState) (t : RtnTransition)
    (start : Offset) : Option (ParseState × List Event) :=
  match s.parse_stack with
  | [] => none
  | f :: rest =>
    match f.data with
    | FrameData.rtn ri si _ =>
      match t.edge with
      | RtnEdge.nonterm nt =>
        let s1 := { s with
          parse_stack := { f with data := FrameData.rtn ri si (some t) } :: rest }
        some (push_rtn_frame s1 nt start)
      | RtnEdge.terminal _ => none
    | _ => none

/-- `pop_rtn_frame`: fires `end_rule`, pops; on an emptied stack returns
`EOF`; otherwise the new top must be an RTN frame, and if its committed
transition is set the frame's state advances to the transition's destination
(else the C asserts that only the outermost frame remains). -/
def pop_rtn_frame (s : ParseState) : Option (ParseStatus × ParseState × List Event) :=
  match s.parse_stack with
  | [] => none
  | f :: rest =>
    match f.data with
    | FrameData.rtn ri _ _ =>
      let ev := [{ kind := EventKind.end_rule ri, state := snap s }]
      match rest with
      | [] => some (ParseStatus.eof, { s with parse_stack := [] }, ev)
      | f2 :: rest2 =>
        match f2.data with
        | FrameData.rtn ri2 _ tr2 =>
          match tr2 with
          | some t =>
            some (ParseStatus.ok,
              { s with parse_stack :=
                  { f2 with data := FrameData.rtn ri2 t.dest_state tr2 } :: rest2 },
              ev)
          | none =>
            if rest2 = [] then
              some (ParseStatus.ok, { s with parse_stack := f2 :: rest2 }, ev)
            else none
        | _ => none
    | _ => none

/-- `pop_gla_frame`. -/
def pop_gla_frame (s : ParseState) : Option ParseState :=
  match s.parse_stack with
  | [] => none
  | f :: rest =>
    match f.data with
    | FrameData.gla _ _ => some { s with parse_stack := rest }
    | _ => none

/-- `pop_intfa_frame`. -/
def pop_intfa_frame (s : ParseState) : Option ParseState :=
  match s.parse_stack with
  | [] => none
  | f :: rest =>
    match f.data with
    | FrameData.intfa _ _ => some { s with parse_stack := rest }
    | _ => none

/-! ## Terminal routing (`interpreter.c` lines 276-504) -/

/-- `do_rtn_terminal_transition`: commits `t` on the top RTN frame, fires the
`terminal` callback, and advances the RTN state to `t.dest_state`.  (In the C
the commit happens only when `terminal_cb` is set; the model has every
callback installed.)  `none` models the assert that `t` is a terminal
transition, or a non-RTN top. -/
def do_rtn_terminal_transition (s : ParseState) (t : RtnTransition)
    (term : Terminal) : Option (ParseStatus × ParseState × List Event) :=
  match s.parse_stack with
  | [] => none
  | f :: rest =>
    match f.data with
    | FrameData.rtn ri si _ =>
      let s1 := { s with
        parse_stack := { f with data := FrameData.rtn ri si (some t) } :: rest }
      match t.edge with
      | RtnEdge.terminal _ =>
        some (ParseStatus.ok,
          { s1 with parse_stack :=
              { f with data := FrameData.rtn ri t.dest_state (some t) } :: rest },
          [{ kind := EventKind.terminal term, state := snap s1 }])
      | RtnEdge.nonterm _ => none
    | _ => none

/-- `find_rtn_terminal_transition`: first terminal transition of the top RTN
frame's current state whose name equals the terminal's name.  The outer
`Option` is the model's failure (bad stack shape); the inner `Option` is the
C's NULL-on-not-found result. -/
def find_rtn_terminal_transition (g : Grammar) (s : ParseState)
    (term : Terminal) : Option (Option RtnTransition) :=
  match s.parse_stack with
  | [] => none
  | f :: _ =>
    match f.data with
    | FrameData.rtn ri si _ =>
      match lookupRtnState g ri si with
      | none => none
      | some st =>
        some (st.transitions.find? fun t =>
          match t.edge with
          | RtnEdge.terminal n => some n = term.name
          | RtnEdge.nonterm _ => false)
    | _ => none

/-- `find_gla_transition`: first transition whose `term` equals `term_name`
(`none` looks for the EOF sentinel). -/
def find_gla_transition (transitions : List GlaTransition)
    (term_name : Option Nat) : Option GlaTransition :=
  transitions.find? fun t => t.term = term_name

/-- `do_gla_transition`: transitions the top GLA frame on `term_name`; if the
destination is a final GLA state, pops the GLA frame and performs the RTN
transition it selects (`transition_offset` 0 pops the enclosing RTN frame;
`n > 0` takes the n-th transition of the top RTN state, consuming the token at
the RTN cursor when that transition is terminal).  Returns the possibly
advanced RTN cursor.  `none` models the asserts (top frame is a nonfinal GLA,
the transition exists, the buffered token matches a selected terminal
transition) and out-of-bounds accesses. -/
def do_gla_transition (g : Grammar) (s : ParseState) (term_name : Option Nat)
    (rtnOff : Nat) : Option (ParseStatus × ParseState × Nat × List Event) :=
  match s.parse_stack with
  | [] => none
  | f :: rest =>
    match f.data with
    | FrameData.gla gi si =>
      match lookupGlaState g gi si with
      | none => none
      | some (GlaState.final _) => none
      | some (GlaState.nonfinal _ transitions) =>
        match find_gla_transition transitions term_name with
        | none => none
        | some t =>
          let s1 := { s with
            parse_stack := { f with data := FrameData.gla gi t.dest_state } :: rest }
          match lookupGlaState g gi t.dest_state with
          | none => none
          | some (GlaState.nonfinal _ _) => some (ParseStatus.ok, s1, rtnOff, [])
          | some (GlaState.final offn) =>
            let s2 := { s1 with parse_stack := rest }
            if offn = 0 then
              (pop_rtn_frame s2).map fun r => (r.1, r.2.1, rtnOff, r.2.2)
            else
              match rest with
              | [] => none
              | f2 :: _ =>
                match f2.data with
                | FrameData.rtn ri si2 _ =>
                  match lookupRtnState g ri si2 with
                  | none => none
                  | some rstate =>
                    match rstate.transitions.get? (offn - 1) with
                    | none => none
                    | some t2 =>
                      match s2.token_buffer.get? rtnOff with
                      | none => none
                      | some next_term =>
                        match t2.edge with
                        | RtnEdge.terminal tn =>
                          if next_term.name = some tn then
                            (do_rtn_terminal_transition s2 t2 next_term).map
                              fun r => (r.1, r.2.1, rtnOff + 1, r.2.2)
                          else none
                        | RtnEdge.nonterm _ =>
                          (push_rtn_frame_for_transition s2 t2 next_term.offset).map
                            fun r => (ParseStatus.ok, r.1, rtnOff, r.2)
                | _ => none
    | _ => none

/-! ## Epsilon descent (`interpreter.c` lines 201-257) -/

/-- `descend_to_gla`: from the current top frame, take transitions that
consume no terminal.  A `HAS_NEITHER` RTN state with no transitions pops its
frame (final state); with exactly one (necessarily nonterminal) transition it
calls the callee.  Stops on `HAS_INTFA` (`entered_gla = false`) or after
pushing a GLA frame on `HAS_GLA` (`entered_gla = true`), or when the loop's
status is no longer `OK` (hard EOF from a pop). -/
def descend_to_gla (g : Grammar) :
    Nat → ParseState → Offset → Option (ParseStatus × Bool × ParseState × List Event)
  | 0, _, _ => none
  | Nat.succ fuel, s, start =>
    match s.parse_stack with
    | [] => none
    | f :: _ =>
      match f.data with
      | FrameData.gla _ _ => some (ParseStatus.ok, false, s, [])
      | FrameData.intfa _ _ => some (ParseStatus.ok, false, s, [])
      | FrameData.rtn ri si _ =>
        match lookupRtnState g ri si with
        | none => none
        | some st =>
          match st.lookahead with
          | Lookahead.hasIntfa _ => some (ParseStatus.ok, false, s, [])
          | Lookahead.hasGla gi =>
            some (ParseStatus.ok, true, push_gla_frame s gi start, [])
          | Lookahead.hasNeither =>
            match st.transitions with
            | [] =>
              match pop_rtn_frame s with
              | none => none
              | some (st1, s1, ev1) =>
                if st1 = ParseStatus.ok then
                  (descend_to_gla g fuel s1 start).map fun r =>
                    (r.1, r.2.1, r.2.2.1, ev1 ++ r.2.2.2)
                else some (st1, false, s1, ev1)
            | [t] =>
              match t.edge with
              | RtnEdge.nonterm _ =>
                match push_rtn_frame_for_transition s t start with
                | none => none
                | some (s1, ev1) =>
                  (descend_to_gla g fuel s1 start).map fun r =>
                    (r.1, r.2.1, r.2.2.1, ev1 ++ r.2.2.2)
              | RtnEdge.terminal _ => none
            | _ :: _ :: _ => none

/-- `push_intfa_frame_for_gla_or_rtn`: pushes a fresh IntFA frame chosen by
the current top frame (the GLA state's IntFA for a nonfinal GLA top, the RTN
state's IntFA for a `HAS_INTFA` RTN top), started at the current offset. -/
def push_intfa_frame_for_gla_or_rtn (g : Grammar) (s : ParseState) :
    Option ParseState :=
  match s.parse_stack with
  | [] => none
  | f :: _ =>
    match f.data with
    | FrameData.gla gi si =>
      match lookupGlaState g gi si with
      | some (GlaState.nonfinal ii _) => some (push_intfa_frame s ii s.offset)
      | _ => none
    | FrameData.rtn ri si _ =>
      match lookupRtnState g ri si with
      | some st =>
        match st.lookahead with
        | Lookahead.hasIntfa ii => some (push_intfa_frame s ii s.offset)
        | _ => none
      | none => none
    | FrameData.intfa _ _ => none

/-! ## `process_terminal` (`interpreter.c` lines 406-504) -/

/-- The token-buffer append inside `process_terminal` (the
`RESIZE_DYNARRAY(s->token_buffer, len+1)` followed by the field stores).
There is no check of any lookahead limit: the append succeeds on every
state. -/
def append_terminal (s : ParseState) (t : Terminal) : ParseState :=
  { s with token_buffer := s.token_buffer ++ [t] }

/-- Result of the token-routing loop of `process_terminal`.  `earlyError` is
the `return GZL_PARSE_STATUS_ERROR` taken when no RTN transition matches a
terminal: it leaves `process_terminal` (and so skips the token-buffer
compaction).  `done` is a normal exit of the `do ... while` loop, carrying
the loop status and the final RTN cursor. -/
inductive PtResult where
  | earlyError (s : ParseState) (ev : List Event)
  | done (st : ParseStatus) (s : ParseState) (rtnOff : Nat) (ev : List Event)
deriving DecidableEq, Repr

/-- Outcome of one body execution of the token-routing loop, before the
epsilon descent: the syntactic-error early return (`err`), the `continue`
taken on the EOF sentinel (`cont`, carrying the advanced RTN cursor), or a
completed RTN/GLA step (`stepped`). -/
inductive PtStep where
  | err (s : ParseState) (ev : List Event)
  | cont (rtnOff : Nat)
  | stepped (st : ParseStatus) (s : ParseState) (rtnOff glaOff : Nat) (ev : List Event)
deriving DecidableEq, Repr

/-- The RTN/GLA dispatch at the top of the token-routing loop's body.  The
RTN branch reads the token at the RTN cursor, skips an EOF sentinel
(`continue`), reports a syntactic error when no terminal transition matches
(firing `error_terminal` with the newly appended terminal `term`), or takes
the matching transition.  The `else` branch (taken for any non-RTN frame
type) reads the token at the GLA cursor and performs a GLA transition. -/
def pt_step (g : Grammar) (s : ParseState) (ftype : FrameTag)
    (rtnOff glaOff : Nat) (term : Terminal) : Option PtStep :=
  match ftype with
  | FrameTag.rtn =>
    match s.token_buffer.get? rtnOff with
    | none => none
    | some rtn_term =>
      if rtn_term.name = none then some (PtStep.cont (rtnOff + 1))
      else
        match find_rtn_terminal_transition g s rtn_term with
        | none => none
        | some none =>
          some (PtStep.err s
            [{ kind := EventKind.error_terminal term, state := snap s }])
        | some (some t) =>
          (do_rtn_terminal_transition s t rtn_term).map fun r =>
            PtStep.stepped r.1 r.2.1 (rtnOff + 1) glaOff r.2.2
  | _ =>
    match s.token_buffer.get? glaOff with
    | none => none
    | some gla_term =>
      (do_gla_transition g s gla_term.name rtnOff).map fun r =>
        PtStep.stepped r.1 r.2.1 r.2.2.1 (glaOff + 1) r.2.2.2

/-- Prefixing the events of an iteration onto the events of the rest of the
loop. -/
def prependEvents (pre : List Event) : PtResult → PtResult
  | PtResult.earlyError se eve => PtResult.earlyError se (pre ++ eve)
  | PtResult.done st se ro eve => PtResult.done st se ro (pre ++ eve)

/-- The `do ... while` token-routing loop of `process_terminal`.  `ftype` is
the C's `frame_type` local (updated only at the end of an OK iteration),
`rtnOff`/`glaOff` the two cursors into the token buffer, `term` the pointer
to the newly appended terminal (used by the `error_terminal` callback).
After an OK step the loop runs the epsilon descent (resetting the GLA cursor
to the RTN cursor when a new GLA was entered), refreshes the frame type from
the new top, and re-checks the while condition. -/
def pt_loop (g : Grammar) :
    Nat → ParseState → FrameTag → Nat → Nat → Terminal → Option PtResult
  | 0, _, _, _, _, _ => none
  | Nat.succ fuel, s, ftype, rtnOff, glaOff, term =>
    match pt_step g s ftype rtnOff glaOff term with
    | none => none
    | some (PtStep.err se eve) => some (PtResult.earlyError se eve)
    | some (PtStep.cont rtnOff1) =>
      -- `continue`: straight to the loop condition, frame type unchanged
      if rtnOff1 < s.token_buffer.length then
        pt_loop g fuel s ftype rtnOff1 glaOff term
      else some (PtResult.done ParseStatus.ok s rtnOff1 [])
    | some (PtStep.stepped stt s1 rtnOff1 glaOff1 ev1) =>
      -- on OK, run the epsilon descent from the next unconsumed token's
      -- offset (or the current offset when the buffer is exhausted)
      if stt = ParseStatus.ok then
        match descend_to_gla g (Nat.succ fuel) s1
            (match s1.token_buffer.get? rtnOff1 with
             | some t => t.offset
             | none => s1.offset) with
        | none => none
        | some (st2, entered, s2, ev2) =>
          -- entering a GLA resets the GLA cursor to the RTN cursor
          if st2 = ParseStatus.ok then
            match s2.parse_stack with
            | [] => none
            | f :: _ =>
              if (f.tag = FrameTag.rtn ∧ rtnOff1 < s2.token_buffer.length) ∨
                 (f.tag = FrameTag.gla ∧
                   (if entered then rtnOff1 else glaOff1) < s2.token_buffer.length) then
                (pt_loop g fuel s2 f.tag rtnOff1
                    (if entered then rtnOff1 else glaOff1) term).map
                  (prependEvents (ev1 ++ ev2))
              else some (PtResult.done ParseStatus.ok s2 rtnOff1 (ev1 ++ ev2))
          else some (PtResult.done st2 s2 rtnOff1 (ev1 ++ ev2))
      else some (PtResult.done stt s1 rtnOff1 ev1)

/-- The tail of `process_terminal` after the routing loop exits normally
(lines 481-502): discard a left-over EOF sentinel at the cursor, drop the
consumed prefix of the token buffer, and update `open_terminal_offset` to
the first remaining entry's offset (or the current offset when the buffer
becomes empty). -/
def pt_compact (s3 : ParseState) (rtnOff : Nat) : ParseState :=
  let rtnOff1 := match s3.token_buffer.get? rtnOff with
    | some t => if t.name = none then rtnOff + 1 else rtnOff
    | none => rtnOff
  { s3 with
    token_buffer := s3.token_buffer.drop rtnOff1
    open_terminal_offset := match (s3.token_buffer.drop rtnOff1).head? with
      | some t => t.offset
      | none => s3.offset }

/-- `process_terminal`: pops the finishing IntFA frame, appends the new
terminal to the token buffer, runs the token-routing loop, then compacts the
token buffer via `pt_compact` — except on the loop's syntactic-error early
return, which leaves the buffer and `open_terminal_offset` untouched. -/
def process_terminal (g : Grammar) (fuel : Nat) (s : ParseState)
    (term_name : Option Nat) (start : Offset) (len : Nat) :
    Option (ParseStatus × ParseState × List Event) :=
  match pop_intfa_frame s with
  | none => none
  | some s1 =>
    match s1.parse_stack with
    | [] => none
    | f2 :: _ =>
      match pt_loop g fuel
          (append_terminal s1 { name := term_name, offset := start, len := len })
          f2.tag 0 s1.token_buffer.length
          { name := term_name, offset := start, len := len } with
      | none => none
      | some (PtResult.earlyError s3 ev) => some (ParseStatus.error, s3, ev)
      | some (PtResult.done st s3 rtnOff ev) => some (st, pt_compact s3 rtnOff, ev)

/-! ## Lexer tick (`interpreter.c` lines 506-614) -/

/-- `find_intfa_transition`: the transition out of this state whose inclusive
`[ch_low, ch_high]` range contains `ch`. -/
def find_intfa_transition (st : IntfaState) (ch : Nat) : Option IntfaTransition :=
  st.transitions.find? fun t => t.ch_low ≤ ch ∧ ch ≤ t.ch_high

/-- The offset/newline update of `do_intfa_transition` (lines 576-595):
increment the byte; on a newline byte (LF `0x0A` or CR `0x0D`) whose
predecessor was not itself a newline byte, increment the line and reset the
column to 1; on a non-newline byte increment the column.  Returns the new
offset and the new `last_char_was_newline` flag. -/
def updateOffsetForChar (o : Offset) (lastNl : Bool) (ch : Nat) : Offset × Bool :=
  let o1 := { o with byte := o.byte + 1 }
  let isNl := ch = 0x0A ∨ ch = 0x0D
  if isNl then
    if lastNl then (o1, true) else ({ o1 with line := o1.line + 1, column := 1 }, true)
  else (({ o1 with column := o1.column + 1 }), false)

/-- The tail of `do_intfa_transition` after a transition `t` on `ch` has been
found: advance the offset and newline flag, move the top IntFA frame to
`t.dest_state`, and — if the destination is accepting with no outgoing
transitions — immediately process the terminal (reading the start offset
through the C's `frame` pointer, modelled as the entry bottom-based stack
index `frameIdx`) and push a fresh IntFA frame. -/
def intfa_consume (g : Grammar) (fuel : Nat) (s : ParseState) (ch : Nat)
    (t : IntfaTransition) (frameIdx : Nat) (evAcc : List Event) :
    Option (ParseStatus × ParseState × List Event) :=
  match s.parse_stack with
  | [] => none
  | f :: rest =>
    match f.data with
    | FrameData.intfa ii _ =>
      let (off1, lastNl1) := updateOffsetForChar s.offset s.last_char_was_newline ch
      let s1 := { s with
        offset := off1
        last_char_was_newline := lastNl1
        parse_stack := { f with data := FrameData.intfa ii t.dest_state } :: rest }
      match lookupIntfaState g ii t.dest_state with
      | none => none
      | some dst =>
        match dst.final with
        | some nm =>
          if dst.transitions = [] then
            -- re-read the frame's start offset through the stale `frame`
            -- pointer: array slot `frameIdx` counted from the bottom
            if h : frameIdx < s1.parse_stack.length then
              let fr := s1.parse_stack.get ⟨s1.parse_stack.length - 1 - frameIdx,
                by omega⟩
              match process_terminal g fuel s1 (some nm) fr.start_offset
                  (off1.byte - fr.start_offset.byte) with
              | none => none
              | some (st2, s3, ev2) =>
                if st2 = ParseStatus.ok then
                  (push_intfa_frame_for_gla_or_rtn g s3).map fun s4 =>
                    (ParseStatus.ok, s4, evAcc ++ ev2)
                else some (st2, s3, evAcc ++ ev2)
            else none
          else some (ParseStatus.ok, s1, evAcc)
        | none => some (ParseStatus.ok, s1, evAcc)
    | _ => none

/-- The retry of `do_intfa_transition` after a lexeme has been finalized by
`process_terminal` (lines 560-573): on OK, push a fresh IntFA frame chosen
by the new GLA/RTN top and look the same byte `ch` up in the fresh frame's
start state; if the fresh frame has no transition either, fire `error_char`
and return ERROR — the offset has not been advanced, so the parse state
still points at the offending byte. -/
def intfa_retry (g : Grammar) (fuel : Nat) (ch : Nat) (frameIdx : Nat)
    (r : ParseStatus × ParseState × List Event) :
    Option (ParseStatus × ParseState × List Event) :=
  match r with
  | (st1, s1, ev1) =>
    if st1 = ParseStatus.ok then
      match push_intfa_frame_for_gla_or_rtn g s1 with
      | none => none
      | some s2 =>
        match s2.parse_stack with
        | [] => none
        | f2 :: _ =>
          match f2.data with
          | FrameData.intfa ii2 si2 =>
            match lookupIntfaState g ii2 si2 with
            | none => none
            | some st2 =>
              match find_intfa_transition st2 ch with
              | none =>
                some (ParseStatus.error, s2,
                  ev1 ++ [{ kind := EventKind.error_char ch, state := snap s2 }])
              | some t2 => intfa_consume g fuel s2 ch t2 frameIdx ev1
          | _ => none
    else some (st1, s1, ev1)

/-- `do_intfa_transition`: feed one byte to the top IntFA frame.  If no
transition covers `ch`, the C asserts the current state is accepting
(`assert(terminal)` — `none` here when it is not), finalizes the current
lexeme with length `offset.byte - frame.start_offset.byte` (the bytes
consumed so far, excluding `ch`), and retries the same `ch` via
`intfa_retry`. -/
def do_intfa_transition (g : Grammar) (fuel : Nat) (s : ParseState) (ch : Nat) :
    Option (ParseStatus × ParseState × List Event) :=
  match s.parse_stack with
  | [] => none
  | f :: _ =>
    match f.data with
    | FrameData.intfa ii si =>
      match lookupIntfaState g ii si with
      | none => none
      | some st =>
        let frameIdx := s.parse_stack.length - 1
        match find_intfa_transition st ch with
        | some t => intfa_consume g fuel s ch t frameIdx []
        | none =>
          match st.final with
          | none => none
          | some nm =>
            Option.bind
              (process_terminal g fuel s (some nm) f.start_offset
                (s.offset.byte - f.start_offset.byte))
              (intfa_retry g fuel ch frameIdx)
    | _ => none

/-! ## `gzl_parse` (`interpreter.c` lines 620-644) -/

/-- The byte loop of `gzl_parse`: `for(i = 0; i < buf_len && status == OK; i++)
status = do_intfa_transition(s, buf[i]);`.  `st` is the status entering the
check. -/
def parse_bytes (g : Grammar) (fuel : Nat) :
    ParseStatus → ParseState → List Nat → Option (ParseStatus × ParseState × List Event)
  | st, s, [] => some (st, s, [])
  | st, s, ch :: rest =>
    if st = ParseStatus.ok then
      match do_intfa_transition g fuel s ch with
      | none => none
      | some (st1, s1, ev1) =>
        (parse_bytes g fuel st1 s1 rest).map fun r => (r.1, r.2.1, ev1 ++ r.2.2)
    else some (st, s, [])

/-- The first-call initialization of `gzl_parse`: push the start RTN
(`rtns[0]`), descend, and on OK push an IntFA frame. -/
def gzl_parse_init (g : Grammar) (fuel : Nat) (s : ParseState) :
    Option (ParseStatus × ParseState × List Event) :=
  let (s1, ev1) := push_rtn_frame s 0 s.offset
  match descend_to_gla g fuel s1 s1.offset with
  | none => none
  | some (st2, _, s2, ev2) =>
    if st2 = ParseStatus.ok then
      (push_intfa_frame_for_gla_or_rtn g s2).map fun s3 =>
        (ParseStatus.ok, s3, ev1 ++ ev2)
    else some (st2, s2, ev1 ++ ev2)

/-- `gzl_parse`: on the first call (offset 0, empty stack) run the
initialization; a call on an empty stack returns `EOF` (prior hard EOF);
otherwise feed the buffer byte by byte while the status stays `OK`. -/
def gzl_parse (g : Grammar) (fuel : Nat) (s : ParseState) (buf : List Nat) :
    Option (ParseStatus × ParseState × List Event) :=
  let step1 : Option (ParseStatus × ParseState × List Event) :=
    if s.offset.byte = 0 ∧ s.parse_stack = [] then gzl_parse_init g fuel s
    else some (ParseStatus.ok, s, [])
  match step1 with
  | none => none
  | some (st0, s0, ev0) =>
    if s0.parse_stack = [] then some (ParseStatus.eof, s0, ev0)
    else
      (parse_bytes g fuel st0 s0 buf).map fun r => (r.1, r.2.1, ev0 ++ r.2.2)

/-! ## `gzl_finish_parse` (`interpreter.c` lines 646-744) -/

/-- The IntFA phase of `gzl_finish_parse` (lines 654-680): an open IntFA
frame must be in its start state (pop it), in an accepting non-start state
(process the terminal now; the C discards the status), or both (the
unhandled "hard case": `assert(false)`, modelled as `none`); otherwise the
function returns `false`.  The result is `(done?, state, events)` where
`done? = some b` means `gzl_finish_parse` returns `b` immediately.  (When
the stack is empty the C reads one frame past the array; the model takes the
benign reading and falls through.) -/
def finish_intfa_phase (g : Grammar) (fuel : Nat) (s : ParseState) :
    Option (Option Bool × ParseState × List Event) :=
  match s.parse_stack with
  | [] => some (none, s, [])
  | f :: _ =>
    match f.data with
    | FrameData.intfa ii si =>
      match lookupIntfaState g ii si with
      | none => none
      | some st =>
        if st.final.isSome ∧ si = 0 then none
        else if st.final.isSome then
          match process_terminal g fuel s st.final f.start_offset
              (s.offset.byte - f.start_offset.byte) with
          | none => none
          | some (_, s1, ev1) => some (none, s1, ev1)
        else if si = 0 then
          (pop_intfa_frame s).map fun s1 => (none, s1, [])
        else some (some false, s, [])
    | _ => some (none, s, [])

/-- The GLA phase of `gzl_finish_parse` (lines 685-712): an open GLA frame in
its start state is popped; otherwise the state must have an outgoing
EOF-sentinel transition, which is taken by processing a synthetic zero-length
EOF terminal (after pushing an empty IntFA frame for `process_terminal` to
pop), and then any non-RTN frames are popped without callbacks. -/
def finish_gla_phase (g : Grammar) (fuel : Nat) (s : ParseState) :
    Option (Option Bool × ParseState × List Event) :=
  match s.parse_stack with
  | [] => some (none, s, [])
  | f :: _ =>
    match f.data with
    | FrameData.gla gi si =>
      if si = 0 then
        (pop_gla_frame s).map fun s1 => (none, s1, [])
      else
        match lookupGlaState g gi si with
        | none => none
        | some (GlaState.final _) => none
        | some (GlaState.nonfinal _ transitions) =>
          match find_gla_transition transitions none with
          | none => some (some false, s, [])
          | some _ =>
            -- the pushed empty frame's union is uninitialized in the C and
            -- never read before `process_terminal` pops it
            let s1 := push_empty_frame s (FrameData.intfa 0 0) s.offset
            match process_terminal g fuel s1 none s1.offset 0 with
            | none => none
            | some (_, s2, ev2) =>
              some (none,
                { s2 with parse_stack :=
                    s2.parse_stack.dropWhile (fun fr => fr.tag ≠ FrameTag.rtn) },
                ev2)
    | _ => some (none, s, [])

/-- The bottom-up check of the RTN phase, over the frames of
`parse_stack[0 .. len-2]` — every frame except the TOP (in the model's
head-at-top list: the tail, traversed bottom first).  The C asserts each
frame's `rtn_transition` is set, then requires its destination state to be
final. -/
def check_below_top (g : Grammar) : List Frame → Option Bool
  | [] => some true
  | f :: rest =>
    match check_below_top g rest with
    | some true =>
      match f.data with
      | FrameData.rtn ri _ tr =>
        match tr with
        | none => none
        | some t =>
          match lookupRtnState g ri t.dest_state with
          | none => none
          | some dst => if dst.is_final then some true else some false
      | _ => none
    | r => r

/-- The final pop loop of the RTN phase: `while(parse_stack_len > 0)
pop_rtn_frame(s);`. -/
def finish_pops : Nat → ParseState → Option (ParseState × List Event)
  | 0, s => if s.parse_stack = [] then some (s, []) else none
  | Nat.succ fuel, s =>
    if s.parse_stack = [] then some (s, [])
    else
      match pop_rtn_frame s with
      | none => none
      | some (_, s1, ev1) =>
        (finish_pops fuel s1).map fun r => (r.1, ev1 ++ r.2)

/-- The RTN phase of `gzl_finish_parse` (lines 717-743): with only RTN frames
left, return `false` unless the committed transition of every frame except
the top has a final destination state and the top frame's current state is
final; in that case pop all remaining frames (firing `end_rule` for each)
and return `true`.  An already empty stack (prior hard EOF) returns `true`
directly. -/
def finish_rtn_phase (g : Grammar) (fuel : Nat) (s : ParseState) :
    Option (Bool × ParseState × List Event) :=
  match s.parse_stack with
  | [] => some (true, s, [])
  | f :: rest =>
    match check_below_top g rest with
    | none => none
    | some false => some (false, s, [])
    | some true =>
      match f.data with
      | FrameData.rtn ri si _ =>
        match lookupRtnState g ri si with
        | none => none
        | some st =>
          if st.is_final then
            (finish_pops fuel s).map fun r => (true, r.1, r.2)
          else some (false, s, [])
      | _ => none

/-- `gzl_finish_parse`: the three phases in sequence. -/
def gzl_finish_parse (g : Grammar) (fuel : Nat) (s : ParseState) :
    Option (Bool × ParseState × List Event) :=
  match finish_intfa_phase g fuel s with
  | none => none
  | some (some b, s1, ev1) => some (b, s1, ev1)
  | some (none, s1, ev1) =>
    match finish_gla_phase g fuel s1 with
    | none => none
    | some (some b, s2, ev2) => some (b, s2, ev1 ++ ev2)
    | some (none, s2, ev2) =>
      (finish_rtn_phase g fuel s2).map fun r => (r.1, r.2.1, ev1 ++ ev2 ++ r.2.2)

/-! ## Parse-state lifecycle (`interpreter.c` lines 746-787) -/

/-- `gzl_init_parse_state`: offset (0,1,1), `open_terminal_offset` equal to
it, newline flag cleared, both dynamic arrays resized to length 0.  These
five fields are everything the function initializes: no resource limits are
installed (the parse state has no limit fields). -/
def gzl_init_parse_state (_s : ParseState) : ParseState :=
  { offset := { byte := 0, line := 1, column := 1 }
    open_terminal_offset := { byte := 0, line := 1, column := 1 }
    last_char_was_newline := false
    parse_stack := []
    token_buffer := [] }

/-! ## Dynamic arrays (`dynarray.h`) -/

/-- A dynamic array's bookkeeping: `len` and `size` (capacity), both C
`int`s (the capacity arithmetic is modelled modulo `2^32`, matching the
`unsigned int` bit-twiddling of `ROUND_UP_TO_POWER_OF_TWO`). -/
structure Dynarray where
  len : Nat
  size : Nat
deriving DecidableEq, Repr

/-- `ROUND_UP_TO_POWER_OF_TWO`: decrement, smear the bits right, increment
(32-bit unsigned arithmetic). -/
def roundUpPow2 (num : Nat) : Nat :=
  let v := (num + (2 ^ 32 - 1)) % 2 ^ 32
  let v := v ||| (v >>> 1)
  let v := v ||| (v >>> 2)
  let v := v ||| (v >>> 4)
  let v := v ||| (v >>> 8)
  let v := v ||| (v >>> 16)
  (v + 1) % 2 ^ 32

/-- `INIT_DYNARRAY(name, initial_len, initial_size)`: sets the length to
`initial_len` and the capacity to `initial_len` rounded up to a power of two.
(The macro's `initial_size` parameter is never used.) -/
def INIT_DYNARRAY (initial_len : Nat) (_initial_size : Nat) : Dynarray :=
  { len := initial_len, size := roundUpPow2 initial_len }

/-- `RESIZE_DYNARRAY(name, desired_len)`: if the capacity is below the
desired length double it once; else if the capacity exceeds four times the
desired length halve it; then set the length. -/
def RESIZE_DYNARRAY (a : Dynarray) (desired_len : Nat) : Dynarray :=
  if a.size < desired_len then { len := desired_len, size := a.size * 2 % 2 ^ 32 }
  else if a.size > desired_len * 4 then { len := desired_len, size := a.size / 2 }
  else { a with len := desired_len }

/-! ## Bitcode record accessors (`bc_read_stream.c` lines 248-290) -/

def BITCODE_ERR_VALUE_TOO_LARGE : Nat := 1
def BITCODE_ERR_NO_SUCH_VALUE : Nat := 2
def BITCODE_ERR_IO : Nat := 4
def BITCODE_ERR_CORRUPT_INPUT : Nat := 8
def BITCODE_ERR_INTERNAL : Nat := 16
def BITCODE_ERR_PREMATURE_EOF : Nat := 32

/-- The fields of `struct bc_read_stream` relevant to the record accessors:
the error bitset, the current record's operand count, and the physical
record buffer (`record_buf`, which has capacity beyond
`current_record_size`; entries past the operand count model whatever stale
memory the allocation holds). -/
structure BcReadStream where
  stream_err : Nat
  current_record_size : Nat
  current_record_offset : Nat
  record_buf : List Nat
deriving DecidableEq, Repr

/-- `bc_rs_read_64`: if `i > current_record_size` set `NO_SUCH_VALUE` and
return 0, else return `record_buf[i]`. -/
def bc_rs_read_64 (s : BcReadStream) (i : Nat) : BcReadStream × Nat :=
  if i > s.current_record_size then
    ({ s with stream_err := s.stream_err ||| BITCODE_ERR_NO_SUCH_VALUE }, 0)
  else (s, s.record_buf.getD i 0)

/-- `GETTER_FUNC(type, bits)`: read via `bc_rs_read_64`, then if
`record_buf[i]` exceeds `2^bits - 1` set `VALUE_TOO_LARGE` and return 0. -/
def bc_rs_read_w (bits : Nat) (s : BcReadStream) (i : Nat) : BcReadStream × Nat :=
  let r := bc_rs_read_64 s i
  if r.1.record_buf.getD i 0 > 2 ^ bits - 1 then
    ({ r.1 with stream_err := r.1.stream_err ||| BITCODE_ERR_VALUE_TOO_LARGE }, 0)
  else r

def bc_rs_read_8 (s : BcReadStream) (i : Nat) : BcReadStream × Nat := bc_rs_read_w 8 s i

def bc_rs_read_16 (s : BcReadStream) (i : Nat) : BcReadStream × Nat := bc_rs_read_w 16 s i

def bc_rs_read_32 (s : BcReadStream) (i : Nat) : BcReadStream × Nat := bc_rs_read_w 32 s i

/-! ## `gzl_parse_file` final status mapping (`interpreter.c` lines 868-885) -/

/-- The status mapping after the read/parse loop of `gzl_parse_file`, as a
function of the loop's final engine status, whether the loop saw EOF
(`is_eof`), the result of the post-loop `feof(file)` call, the buffer length
after the final compaction, and the boolean returned by `gzl_finish_parse`.
Translated literally from lines 868-885. -/
def gzl_parse_file_final (status : ParseStatus) (is_eof : Bool) (feof : Bool)
    (buf_len : Nat) (finish_result : Bool) : ParseStatus :=
  if status = ParseStatus.eof ∨ (status = ParseStatus.ok ∧ is_eof) then
    if finish_result then
      if ¬feof ∨ buf_len > 0 then ParseStatus.ok
      else ParseStatus.premature_eof_error
    else ParseStatus.premature_eof_error
  else status

/-! ## Concrete fixtures

Small grammars and parse states used to evaluate the engine on concrete
inputs. -/

/-- A freshly initialized parse state (the result of `gzl_init_parse_state`). -/
def initState : ParseState :=
  { offset := { byte := 0, line := 1, column := 1 }
    open_terminal_offset := { byte := 0, line := 1, column := 1 }
    last_char_was_newline := false
    parse_stack := []
    token_buffer := [] }

/-- Grammar `S -> NL*` where the IntFA accepts exactly one newline byte
(0x0A-0x0D range) with accept label 1, and the single RTN state is final with
a self-loop on that terminal. -/
def nlGrammar : Grammar :=
  { rtns := [{ name := 0, num_slots := 0,
               states := [{ is_final := true, lookahead := Lookahead.hasIntfa 0,
                            transitions := [{ edge := RtnEdge.terminal 1, dest_state := 0,
                                              slotname := 0, slotnum := 0 }] }] }]
    glas := []
    intfas := [{ states := [{ final := none,
                              transitions := [{ ch_low := 10, ch_high := 13, dest_state := 1 }] },
                            { final := some 1, transitions := [] }] }] }

/-- A grammar whose single IntFA start state is accepting (label 1) with no
outgoing transitions, and whose RTN self-loops on that terminal: every input
byte makes the lexer finalize a zero-length terminal, retry the byte on a
fresh frame, fail again and report a lexical error, leaving the parse state
resumable before the byte. -/
def zeroLexGrammar : Grammar :=
  { rtns := [{ name := 0, num_slots := 0,
               states := [{ is_final := true, lookahead := Lookahead.hasIntfa 0,
                            transitions := [{ edge := RtnEdge.terminal 1, dest_state := 0,
                                              slotname := 0, slotnum := 0 }] }] }]
    glas := []
    intfas := [{ states := [{ final := some 1, transitions := [] }] }] }

/-- The parse state reached by `gzl_parse zeroLexGrammar` after its
initialization: start RTN pushed, descent stopped at `HAS_INTFA`, IntFA frame
pushed at the start state. -/
def zeroLexState : ParseState :=
  { initState with parse_stack :=
      [{ data := FrameData.intfa 0 0, start_offset := initState.offset },
       { data := FrameData.rtn 0 0 none, start_offset := initState.offset }] }

/-- A grammar whose IntFA only accepts the byte `a` (0x61): its start state
is not accepting and has no transition for any other byte. -/
def strayByteGrammar : Grammar :=
  { rtns := [{ name := 0, num_slots := 0,
               states := [{ is_final := true, lookahead := Lookahead.hasIntfa 0,
                            transitions := [{ edge := RtnEdge.terminal 1, dest_state := 0,
                                              slotname := 0, slotnum := 0 }] }] }]
    glas := []
    intfas := [{ states := [{ final := none,
                              transitions := [{ ch_low := 97, ch_high := 97, dest_state := 1 }] },
                            { final := some 1, transitions := [] }] }] }

/-- A grammar with one RTN whose state 0 is final and state 1 is not (both
trivial states), used to exercise the RTN phase of `gzl_finish_parse`. -/
def twoStateGrammar : Grammar :=
  { rtns := [{ name := 0, num_slots := 0,
               states := [{ is_final := true, lookahead := Lookahead.hasNeither,
                            transitions := [] },
                          { is_final := false, lookahead := Lookahead.hasNeither,
                            transitions := [] }] }]
    glas := [], intfas := [] }

/-- A committed nonterminal transition of `twoStateGrammar` whose destination
state (state 0) is final. -/
def twoStateCall : RtnTransition :=
  { edge := RtnEdge.nonterm 0, dest_state := 0, slotname := 0, slotnum := 0 }

/-- A two-frame all-RTN stack over `twoStateGrammar`: the TOP frame sits in
final state 0 with no committed transition; the BOTTOM frame sits in
non-final state 1 with committed transition `twoStateCall` (whose destination
is final). -/
def twoFrameState : ParseState :=
  { initState with parse_stack :=
      [{ data := FrameData.rtn 0 0 none, start_offset := initState.offset },
       { data := FrameData.rtn 0 1 (some twoStateCall), start_offset := initState.offset }] }

/-- A grammar whose single RTN state accepts no terminal at all (no
transitions), so that routing any terminal through it takes the
syntactic-error path of `process_terminal`. -/
def noMatchGrammar : Grammar :=
  { rtns := [{ name := 0, num_slots := 0,
               states := [{ is_final := false, lookahead := Lookahead.hasIntfa 0,
                            transitions := [] }] }]
    glas := []
    intfas := [{ states := [{ final := some 5, transitions := [] }] }] }

/-- A parse state at offset 7 with an open IntFA frame started at offset 5
above an RTN frame of `noMatchGrammar`. -/
def noMatchState : ParseState :=
  { initState with
    offset := { byte := 7, line := 1, column := 8 }
    parse_stack :=
      [{ data := FrameData.intfa 0 0, start_offset := { byte := 5, line := 1, column := 6 } },
       { data := FrameData.rtn 0 0 none, start_offset := initState.offset }] }

/-- A bitcode stream positioned on a one-operand record (value 5) whose
physical `record_buf` holds a stale value 99 one slot past the record. -/
def sampleStream : BcReadStream :=
  { stream_err := 0, current_record_size := 1, current_record_offset := 0
    record_buf := [5, 99] }

/-- The parse state produced by `gzl_parse nlGrammar 20 initState [10]`. -/
def nlMidState : ParseState :=
  { offset := { byte := 1, line := 2, column := 1 }
    open_terminal_offset := { byte := 1, line := 2, column := 1 }
    last_char_was_newline := true
    parse_stack :=
      [{ data := FrameData.intfa 0 0, start_offset := { byte := 1, line := 2, column := 1 } },
       { data := FrameData.rtn 0 0
           (some { edge := RtnEdge.terminal 1, dest_state := 0, slotname := 0, slotnum := 0 })
         start_offset := { byte := 0, line := 1, column := 1 } }]
    token_buffer := [] }

/-- The parse state produced by `gzl_parse nlGrammar 20 nlMidState [10]`. -/
def nlEndState : ParseState :=
  { offset := { byte := 2, line := 2, column := 1 }
    open_terminal_offset := { byte := 2, line := 2, column := 1 }
    last_char_was_newline := true
    parse_stack :=
      [{ data := FrameData.intfa 0 0, start_offset := { byte := 2, line := 2, column := 1 } },
       { data := FrameData.rtn 0 0
           (some { edge := RtnEdge.terminal 1, dest_state := 0, slotname := 0, slotnum := 0 })
         start_offset := { byte := 0, line := 1, column := 1 } }]
    token_buffer := [] }

/-- The events of `gzl_parse nlGrammar 20 initState [10]`. -/
def nlEvFirst : List Event :=
  [{ kind := EventKind.start_rule 0
     state := { open_terminal_offset := { byte := 0, line := 1, column := 1 }
                oldest_buffered_offset := none
                offset := { byte := 0, line := 1, column := 1 } } },
   { kind := EventKind.terminal
       { name := some 1, offset := { byte := 0, line := 1, column := 1 }, len := 1 }
     state := { open_terminal_offset := { byte := 0, line := 1, column := 1 }
                oldest_buffered_offset := some { byte := 0, line := 1, column := 1 }
                offset := { byte := 1, line := 2, column := 1 } } }]

/-- The events of `gzl_parse nlGrammar 20 nlMidState [10]`. -/
def nlEvSecond : List Event :=
  [{ kind := EventKind.terminal
       { name := some 1, offset := { byte := 1, line := 2, column := 1 }, len := 1 }
     state := { open_terminal_offset := { byte := 1, line := 2, column := 1 }
                oldest_buffered_offset := some { byte := 1, line := 2, column := 1 }
                offset := { byte := 2, line := 2, column := 1 } } }]

/-- A single-frame all-RTN stack over `twoStateGrammar`, resting in the final
state 0. -/
def oneFrameState : ParseState :=
  { initState with parse_stack :=
      [{ data := FrameData.rtn 0 0 none, start_offset := initState.offset }] }

/-- The operations of the token-routing loop change only the parse stack:
the offset, the watermark and the token buffer of `s'` agree with `s`. -/
def PreservesCore (s s' : ParseState) : Prop :=
  s'.offset = s.offset ∧
  s'.open_terminal_offset = s.open_terminal_offset ∧
  s'.token_buffer = s.token_buffer

/-- The state a `PtResult` carries. -/
def PtResult.outState : PtResult → ParseState
  | PtResult.earlyError s _ => s
  | PtResult.done _ s _ _ => s

/-- The events a `PtResult` carries. -/
def PtResult.events : PtResult → List Event
  | PtResult.earlyError _ ev => ev
  | PtResult.done _ _ _ ev => ev

end Gazelle

namespace Gazelle

/-! # Supporting lemmas -/

theorem snap_eq_of_core {s s' : ParseState} (h : PreservesCore s s') :
    snap s' = snap s := by
  obtain ⟨h1, h2, h3⟩ := h
  simp [snap, h1, h2, h3]

theorem PreservesCore.refl (s : ParseState) : PreservesCore s s := ⟨rfl, rfl, rfl⟩

theorem PreservesCore.trans {s1 s2 s3 : ParseState}
    (h1 : PreservesCore s1 s2) (h2 : PreservesCore s2 s3) : PreservesCore s1 s3 := by
  obtain ⟨a1, b1, c1⟩ := h1
  obtain ⟨a2, b2, c2⟩ := h2
  exact ⟨a2.trans a1, b2.trans b1, c2.trans c1⟩

theorem push_empty_frame_core (s : ParseState) (d : FrameData) (off : Offset) :
    PreservesCore s (push_empty_frame s d off) := ⟨rfl, rfl, rfl⟩

theorem push_rtn_frame_core (s : ParseState) (ri : Nat) (off : Offset) :
    PreservesCore s (push_rtn_frame s ri off).1 ∧
    ∀ e ∈ (push_rtn_frame s ri off).2, e.state = snap s := by
  refine ⟨⟨rfl, rfl, rfl⟩, ?_⟩
  intro e he
  simp [push_rtn_frame] at he
  subst he
  simp [snap, push_empty_frame]

theorem push_rtn_frame_for_transition_core {s : ParseState} {t : RtnTransition}
    {off : Offset} {s' : ParseState} {ev : List Event}
    (h : push_rtn_frame_for_transition s t off = some (s', ev)) :
    PreservesCore s s' ∧ ∀ e ∈ ev, e.state = snap s := by
  unfold push_rtn_frame_for_transition at h
  repeat' split at h
  all_goals try exact Option.noConfusion h
  simp only [Option.some.injEq, push_rtn_frame, Prod.mk.injEq] at h
  obtain ⟨h1, h2⟩ := h
  subst h1 h2
  refine ⟨⟨rfl, rfl, rfl⟩, ?_⟩
  intro e he
  simp at he
  subst he
  simp [snap, push_empty_frame]

theorem pop_rtn_frame_core {s : ParseState} {st : ParseStatus} {s' : ParseState}
    {ev : List Event} (h : pop_rtn_frame s = some (st, s', ev)) :
    PreservesCore s s' ∧ ∀ e ∈ ev, e.state = snap s := by
  unfold pop_rtn_frame at h
  repeat' split at h
  all_goals try exact Option.noConfusion h
  all_goals
    simp only [Option.some.injEq, Prod.mk.injEq] at h
    obtain ⟨-, h2, h3⟩ := h
    subst h2 h3
    exact ⟨⟨rfl, rfl, rfl⟩, by intro e he; simp at he; subst he; rfl⟩

theorem do_rtn_terminal_transition_core {s : ParseState} {t : RtnTransition}
    {term : Terminal} {st : ParseStatus} {s' : ParseState} {ev : List Event}
    (h : do_rtn_terminal_transition s t term = some (st, s', ev)) :
    PreservesCore s s' ∧ ∀ e ∈ ev, e.state = snap s := by
  unfold do_rtn_terminal_transition at h
  repeat' split at h
  all_goals try exact Option.noConfusion h
  simp only [Option.some.injEq, Prod.mk.injEq] at h
  obtain ⟨-, h2, h3⟩ := h
  subst h2 h3
  refine ⟨⟨rfl, rfl, rfl⟩, ?_⟩
  intro e he
  simp at he
  subst he
  simp [snap]

theorem do_gla_transition_core {g : Grammar} {s : ParseState} {tn : Option Nat}
    {ro : Nat} {st : ParseStatus} {s' : ParseState} {ro' : Nat} {ev : List Event}
    (h : do_gla_transition g s tn ro = some (st, s', ro', ev)) :
    PreservesCore s s' ∧ ∀ e ∈ ev, e.state = snap s := by
  simp only [do_gla_transition] at h
  repeat' split at h
  all_goals try exact Option.noConfusion h
  all_goals first
    | (simp only [Option.some.injEq, Prod.mk.injEq] at h
       obtain ⟨-, h2, -, h4⟩ := h
       subst h2 h4
       exact ⟨⟨rfl, rfl, rfl⟩, by intro e he; simp at he⟩)
    | (simp only [Option.map_eq_some'] at h
       obtain ⟨r0, hr, hmap⟩ := h
       simp only [Prod.mk.injEq] at hmap
       obtain ⟨-, h2, -, h4⟩ := hmap
       subst h2 h4
       first
         | (have hc := pop_rtn_frame_core hr
            exact ⟨hc.1, hc.2⟩)
         | (have hc := do_rtn_terminal_transition_core hr
            exact ⟨hc.1, hc.2⟩)
         | (have hc := push_rtn_frame_for_transition_core hr
            exact ⟨hc.1, hc.2⟩))

theorem descend_to_gla_core (g : Grammar) (fuel : Nat) :
    ∀ (s : ParseState) (start : Offset) (st : ParseStatus) (ent : Bool)
      (s' : ParseState) (ev : List Event),
    descend_to_gla g fuel s start = some (st, ent, s', ev) →
    PreservesCore s s' ∧ ∀ e ∈ ev, e.state = snap s := by
  induction fuel with
  | zero => intro s start st ent s' ev h; exact Option.noConfusion h
  | succ fuel ih =>
    intro s start st ent s' ev h
    unfold descend_to_gla at h
    repeat' split at h
    all_goals try exact Option.noConfusion h
    all_goals first
      | (simp only [Option.some.injEq, Prod.mk.injEq] at h
         obtain ⟨-, -, h3, h4⟩ := h
         subst h3 h4
         exact ⟨⟨rfl, rfl, rfl⟩, by intro e he; simp at he⟩)
      | (rename_i hstep hok
         simp only [Option.map_eq_some'] at h
         obtain ⟨r0, hr, hmap⟩ := h
         simp only [Prod.mk.injEq] at hmap
         obtain ⟨-, -, h3, h4⟩ := hmap
         subst h3 h4
         have hc1 := pop_rtn_frame_core hstep
         have hc2 := ih _ _ _ _ _ _ hr
         refine ⟨hc1.1.trans hc2.1, ?_⟩
         intro e he
         rw [List.mem_append] at he
         rcases he with he | he
         · exact hc1.2 e he
         · exact (hc2.2 e he).trans (snap_eq_of_core hc1.1))
      | (rename_i hstep
         simp only [Option.map_eq_some'] at h
         obtain ⟨r0, hr, hmap⟩ := h
         simp only [Prod.mk.injEq] at hmap
         obtain ⟨-, -, h3, h4⟩ := hmap
         subst h3 h4
         have hc1 := push_rtn_frame_for_transition_core hstep
         have hc2 := ih _ _ _ _ _ _ hr
         refine ⟨hc1.1.trans hc2.1, ?_⟩
         intro e he
         rw [List.mem_append] at he
         rcases he with he | he
         · exact hc1.2 e he
         · exact (hc2.2 e he).trans (snap_eq_of_core hc1.1))
      | (rename_i hstep hok
         simp only [Option.some.injEq, Prod.mk.injEq] at h
         obtain ⟨-, -, h3, h4⟩ := h
         subst h3 h4
         exact pop_rtn_frame_core hstep)

theorem pt_step_core {g : Grammar} {s : ParseState} {ftype : FrameTag}
    {rtnOff glaOff : Nat} {term : Terminal} {r : PtStep}
    (h : pt_step g s ftype rtnOff glaOff term = some r) :
    (∀ se eve, r = PtStep.err se eve →
        se = s ∧ ∀ e ∈ eve, e.state = snap s) ∧
    (∀ st1 s1 ro1 go1 ev1, r = PtStep.stepped st1 s1 ro1 go1 ev1 →
        PreservesCore s s1 ∧ ∀ e ∈ ev1, e.state = snap s) := by
  unfold pt_step at h
  repeat' split at h
  all_goals try exact Option.noConfusion h
  all_goals first
    | (simp only [Option.some.injEq] at h
       subst h
       refine ⟨?_, ?_⟩
       · intro se eve hr
         first
           | exact PtStep.noConfusion hr
           | (cases hr
              exact ⟨rfl, by intro e he; simp at he; subst he; rfl⟩)
       · intro st1 s1 ro1 go1 ev1 hr
         exact PtStep.noConfusion hr)
    | (simp only [Option.map_eq_some'] at h
       obtain ⟨r0, hr0, hmap⟩ := h
       subst hmap
       refine ⟨?_, ?_⟩
       · intro se eve hr
         exact PtStep.noConfusion hr
       · intro st1 s1 ro1 go1 ev1 hr
         injection hr with e1 e2 e3 e4 e5
         subst e2 e5
         first
           | (have hc := do_rtn_terminal_transition_core hr0
              exact ⟨hc.1, hc.2⟩)
           | (have hc := do_gla_transition_core hr0
              exact ⟨hc.1, hc.2⟩))

theorem prependEvents_outState (pre : List Event) (r : PtResult) :
    (prependEvents pre r).outState = r.outState := by
  cases r <;> rfl

theorem prependEvents_events (pre : List Event) (r : PtResult) :
    (prependEvents pre r).events = pre ++ r.events := by
  cases r <;> rfl

theorem pt_loop_core (g : Grammar) (fuel : Nat) :
    ∀ (s : ParseState) (ftype : FrameTag) (rtnOff glaOff : Nat) (term : Terminal)
      (r : PtResult),
    pt_loop g fuel s ftype rtnOff glaOff term = some r →
    PreservesCore s r.outState ∧ ∀ e ∈ r.events, e.state = snap s := by
  induction fuel with
  | zero => intro s ftype rtnOff glaOff term r h; exact Option.noConfusion h
  | succ fuel ih =>
    intro s ftype rtnOff glaOff term r h
    unfold pt_loop at h
    split at h
    · exact Option.noConfusion h
    · -- early syntactic-error return
      rename_i se eve hstep
      simp only [Option.some.injEq] at h
      subst h
      have hc := (pt_step_core hstep).1 se eve rfl
      constructor
      · rw [hc.1]
        exact PreservesCore.refl s
      · intro e he
        exact hc.2 e he
    · -- EOF-sentinel continue
      rename_i rtnOff1 hstep
      split at h
      · exact ih _ _ _ _ _ _ h
      · simp only [Option.some.injEq] at h
        subst h
        refine ⟨⟨rfl, rfl, rfl⟩, ?_⟩
        intro e he
        exact absurd (show e ∈ ([] : List Event) from he) (by simp)
    · -- a completed RTN/GLA step
      rename_i stt s1 rtnOff1 glaOff1 ev1 hstep
      have hc1 := (pt_step_core hstep).2 stt s1 rtnOff1 glaOff1 ev1 rfl
      have hsnap1 : snap s1 = snap s := snap_eq_of_core hc1.1
      split at h
      · -- status OK: run the epsilon descent
        split at h
        · exact Option.noConfusion h
        · rename_i st2 entered s2 ev2 hdes
          have hc2 := descend_to_gla_core g (Nat.succ fuel) s1 _ _ _ _ _ hdes
          have hsnap2 : snap s2 = snap s := (snap_eq_of_core hc2.1).trans hsnap1
          split at h
          · -- descent status OK: check the while condition
            split at h
            · exact Option.noConfusion h
            · split at h
              all_goals split at h
              all_goals first
                | -- another iteration
                  (rw [Option.map_eq_some'] at h
                   obtain ⟨r0, hr0, hmap⟩ := h
                   subst hmap
                   have hc3 := ih _ _ _ _ _ _ hr0
                   constructor
                   · rw [prependEvents_outState]
                     exact (hc1.1.trans hc2.1).trans hc3.1
                   · intro e he
                     rw [prependEvents_events, List.mem_append, List.mem_append] at he
                     rcases he with (he1 | he2) | he3
                     · exact hc1.2 e he1
                     · exact (hc2.2 e he2).trans hsnap1
                     · exact (hc3.2 e he3).trans hsnap2)
                | -- the loop exits after this iteration
                  (simp only [Option.some.injEq] at h
                   subst h
                   refine ⟨hc1.1.trans hc2.1, ?_⟩
                   intro e he
                   have hmem : e ∈ ev1 ++ ev2 := he
                   rw [List.mem_append] at hmem
                   rcases hmem with he1 | he2
                   · exact hc1.2 e he1
                   · exact (hc2.2 e he2).trans hsnap1)
          · -- descent status not OK: the loop exits
            simp only [Option.some.injEq] at h
            subst h
            refine ⟨hc1.1.trans hc2.1, ?_⟩
            intro e he
            have hmem : e ∈ ev1 ++ ev2 := he
            rw [List.mem_append] at hmem
            rcases hmem with he1 | he2
            · exact hc1.2 e he1
            · exact (hc2.2 e he2).trans hsnap1
      · -- step status not OK: the loop exits
        simp only [Option.some.injEq] at h
        subst h
        exact ⟨hc1.1, fun e he => hc1.2 e he⟩

theorem pop_intfa_frame_core {s s1 : ParseState}
    (h : pop_intfa_frame s = some s1) : PreservesCore s s1 := by
  unfold pop_intfa_frame at h
  repeat' split at h
  all_goals try exact Option.noConfusion h
  simp only [Option.some.injEq] at h
  subst h
  exact ⟨rfl, rfl, rfl⟩

theorem pt_compact_spec (s3 : ParseState) (k : Nat) :
    (pt_compact s3 k).offset = s3.offset ∧
    ∃ k1, (pt_compact s3 k).token_buffer = s3.token_buffer.drop k1 ∧
      (pt_compact s3 k).open_terminal_offset =
        (match (pt_compact s3 k).token_buffer.head? with
         | some t => t.offset
         | none => s3.offset) := by
  refine ⟨rfl, ?_⟩
  refine ⟨(match s3.token_buffer.get? k with
    | some t => if t.name = none then k + 1 else k
    | none => k), rfl, rfl⟩

/-- Master specification of `process_terminal`: the offset is untouched;
every callback fired during the call sees the entry watermark, the entry
offset, and a token buffer whose oldest entry is the entry buffer's oldest
(or, if the buffer was empty, the newly appended terminal); and unless the
call takes the syntactic-error early return, the final token buffer is a
suffix of the entry buffer extended by the new terminal, with
`open_terminal_offset` equal to the first remaining entry's offset (or the
current offset when the buffer has emptied). -/
theorem process_terminal_spec {g : Grammar} {fuel : Nat} {s : ParseState}
    {term_name : Option Nat} {start : Offset} {len : Nat}
    {st : ParseStatus} {s' : ParseState} {ev : List Event}
    (h : process_terminal g fuel s term_name start len = some (st, s', ev)) :
    s'.offset = s.offset ∧
    (∀ e ∈ ev, e.state =
        { open_terminal_offset := s.open_terminal_offset
          oldest_buffered_offset :=
            ((s.token_buffer ++
              [({ name := term_name, offset := start, len := len } : Terminal)]).head?).map
              Terminal.offset
          offset := s.offset }) ∧
    (st ≠ ParseStatus.error → ∃ k,
        s'.token_buffer =
          (s.token_buffer ++
            [({ name := term_name, offset := start, len := len } : Terminal)]).drop k ∧
        s'.open_terminal_offset = (match s'.token_buffer.head? with
          | some t => t.offset
          | none => s.offset)) := by
  unfold process_terminal at h
  split at h
  · exact Option.noConfusion h
  · rename_i s1 hpop
    have hc0 : PreservesCore s s1 := pop_intfa_frame_core hpop
    split at h
    · exact Option.noConfusion h
    · rename_i f2 rest2 hstk
      split at h
      · exact Option.noConfusion h
      · -- the early syntactic-error return
        rename_i s3 ev3 hloop
        simp only [Option.some.injEq, Prod.mk.injEq] at h
        obtain ⟨hst, hs, hev⟩ := h
        subst hst hs hev
        have hc := pt_loop_core g fuel _ _ _ _ _ _ hloop
        have hsnap : snap (append_terminal s1
            ({ name := term_name, offset := start, len := len } : Terminal)) =
            ({ open_terminal_offset := s.open_terminal_offset
               oldest_buffered_offset :=
                 ((s.token_buffer ++
                   [({ name := term_name, offset := start, len := len } : Terminal)]).head?).map
                   Terminal.offset
               offset := s.offset } : Snapshot) := by
          simp [snap, append_terminal, hc0.1, hc0.2.1, hc0.2.2]
        refine ⟨?_, ?_, ?_⟩
        · exact (hc.1.1).trans hc0.1
        · intro e he
          exact ((hc.2 e he).trans hsnap)
        · intro hne
          exact absurd rfl hne
      · -- the normal exit through the compaction
        rename_i st3 s3 rtnOff ev3 hloop
        simp only [Option.some.injEq, Prod.mk.injEq] at h
        obtain ⟨hst, hs, hev⟩ := h
        subst hst hs hev
        have hc := pt_loop_core g fuel _ _ _ _ _ _ hloop
        have hbuf : s3.token_buffer =
            s.token_buffer ++ [({ name := term_name, offset := start, len := len } : Terminal)] := by
          have := hc.1.2.2
          simp only [PtResult.outState] at this
          rw [this]
          simp [append_terminal, hc0.2.2]
        have hsnap : snap (append_terminal s1
            ({ name := term_name, offset := start, len := len } : Terminal)) =
            ({ open_terminal_offset := s.open_terminal_offset
               oldest_buffered_offset :=
                 ((s.token_buffer ++
                   [({ name := term_name, offset := start, len := len } : Terminal)]).head?).map
                   Terminal.offset
               offset := s.offset } : Snapshot) := by
          simp [snap, append_terminal, hc0.1, hc0.2.1, hc0.2.2]
        have hcompact := pt_compact_spec s3 rtnOff
        refine ⟨?_, ?_, ?_⟩
        · rw [hcompact.1]
          exact ((hc.1.1).trans hc0.1)
        · intro e he
          exact ((hc.2 e he).trans hsnap)
        · intro _
          obtain ⟨k1, hk1, hopen⟩ := hcompact.2
          refine ⟨k1, ?_, ?_⟩
          · rw [hk1, hbuf]
          · rw [hopen]
            have hoff3 : s3.offset = s.offset := (hc.1.1).trans hc0.1
            rw [hoff3]

theorem check_below_top_spec (g : Grammar) : ∀ (l : List Frame),
    (∀ fr ∈ l, (match fr.data with
        | FrameData.rtn ri _ (some t) => (lookupRtnState g ri t.dest_state).isSome
        | _ => false) = true) →
    ∃ b, check_below_top g l = some b ∧
      (b = true ↔ ∀ fr ∈ l, (match fr.data with
        | FrameData.rtn ri _ (some t) =>
          ((lookupRtnState g ri t.dest_state).map RtnState.is_final).getD false
        | _ => false) = true) := by
  intro l
  induction l with
  | nil =>
    intro _
    exact ⟨true, rfl, by simp⟩
  | cons f rest ih =>
    intro hb
    obtain ⟨b0, hcb, hiff⟩ := ih fun fr hf => hb fr (List.mem_cons_of_mem f hf)
    have hf := hb f (List.mem_cons_self f rest)
    cases hfd : f.data with
    | rtn ri si tr =>
      cases tr with
      | none =>
        rw [hfd] at hf
        simp at hf
      | some t =>
        rw [hfd] at hf
        simp only [Option.isSome_iff_exists] at hf
        obtain ⟨dst, hlk⟩ := hf
        cases b0 with
        | false =>
          refine ⟨false, ?_, ?_⟩
          · unfold check_below_top
            rw [hcb]
          · simp only [List.forall_mem_cons]
            constructor
            · intro hfalse
              exact absurd hfalse (by simp)
            · intro hcon
              exact absurd (hiff.mpr hcon.2) (by simp)
        | true =>
          refine ⟨dst.is_final, ?_, ?_⟩
          · unfold check_below_top
            rw [hcb]
            simp only [hfd, hlk]
            cases dst.is_final <;> rfl
          · simp only [List.forall_mem_cons, hfd, hlk]
            constructor
            · intro hfin
              exact ⟨by simp [hfin], hiff.mp rfl⟩
            · intro hcon
              have := hcon.1
              simpa using this
    | gla gi sg =>
      rw [hfd] at hf
      simp at hf
    | intfa ii sii =>
      rw [hfd] at hf
      simp at hf

theorem finish_pops_spec : ∀ (fuel : Nat) (s : ParseState),
    (∀ fr ∈ s.parse_stack, fr.tag = FrameTag.rtn) →
    (∀ fr ∈ s.parse_stack.tail, (match fr.data with
        | FrameData.rtn _ _ (some _) => true
        | _ => false) = true) →
    s.parse_stack.length ≤ fuel →
    ∃ s' ev, finish_pops fuel s = some (s', ev) ∧
      s'.parse_stack = [] ∧ PreservesCore s s' ∧
      ev.length = s.parse_stack.length ∧
      ∀ e ∈ ev, ∃ r, e.kind = EventKind.end_rule r := by
  intro fuel
  induction fuel with
  | zero =>
    intro s htop hbelow hlen
    have hnil : s.parse_stack = [] :=
      List.eq_nil_of_length_eq_zero (Nat.le_zero.mp hlen)
    refine ⟨s, [], ?_, hnil, PreservesCore.refl s, by simp [hnil], by simp⟩
    unfold finish_pops
    rw [if_pos hnil]
  | succ fuel ih =>
    intro s htop hbelow hlen
    obtain ⟨o, ot, lnl, stk, tb⟩ := s
    simp only at htop hbelow hlen
    cases stk with
    | nil =>
      refine ⟨_, [], ?_, rfl, PreservesCore.refl _, by simp, by simp⟩
      unfold finish_pops
      rw [if_pos rfl]
    | cons f rest =>
      obtain ⟨fd, fso⟩ := f
      have hft := htop ⟨fd, fso⟩ (List.mem_cons_self _ _)
      cases fd with
      | gla gi sg => exact FrameTag.noConfusion hft
      | intfa ii sii => exact FrameTag.noConfusion hft
      | rtn ri si tr =>
        cases rest with
        | nil =>
          obtain ⟨s2, ev2, hfp, hnil2, hcore2, hlen2, hev2⟩ :=
            ih { offset := o, open_terminal_offset := ot,
                 last_char_was_newline := lnl, parse_stack := [], token_buffer := tb }
              (by simp) (by simp) (by simp)
          refine ⟨s2,
            [{ kind := EventKind.end_rule ri,
               state := snap (ParseState.mk o ot lnl
                 [Frame.mk (FrameData.rtn ri si tr) fso] tb) }] ++ ev2,
            ?_, hnil2, ?_, ?_, ?_⟩
          · unfold finish_pops
            rw [if_neg (by simp)]
            simp only [pop_rtn_frame, hfp, Option.map_some']
          · exact PreservesCore.trans ⟨rfl, rfl, rfl⟩ hcore2
          · simp at hlen2 ⊢
            all_goals first
              | omega
              | simp [hlen2]
          · intro e he
            rcases List.mem_append.mp he with he1 | he1
            · simp at he1
              subst he1
              exact ⟨ri, rfl⟩
            · exact hev2 e he1
        | cons f2 rest2 =>
          obtain ⟨fd2, fso2⟩ := f2
          have hf2t := htop ⟨fd2, fso2⟩
            (List.mem_cons_of_mem _ (List.mem_cons_self _ _))
          have hf2b := hbelow ⟨fd2, fso2⟩ (List.mem_cons_self _ _)
          cases fd2 with
          | gla gi sg => exact FrameTag.noConfusion hf2t
          | intfa ii sii => exact FrameTag.noConfusion hf2t
          | rtn ri2 si2 tr2 =>
            cases tr2 with
            | none => simp at hf2b
            | some t2 =>
              have ht2 : ∀ fr ∈ (Frame.mk (FrameData.rtn ri2 t2.dest_state (some t2)) fso2 ::
                  rest2), fr.tag = FrameTag.rtn := by
                intro fr hfr
                simp only [List.mem_cons] at hfr
                rcases hfr with hfr1 | hfr1
                · subst hfr1
                  rfl
                · exact htop fr (by simp [List.mem_cons, hfr1])
              have hb2 : ∀ fr ∈ rest2, (match fr.data with
                  | FrameData.rtn _ _ (some _) => true
                  | _ => false) = true := by
                intro fr hfr
                exact hbelow fr (List.mem_cons_of_mem _ hfr)
              have hl2 : (Frame.mk (FrameData.rtn ri2 t2.dest_state (some t2)) fso2 ::
                  rest2).length ≤ fuel := by
                simp at hlen ⊢
                omega
              obtain ⟨s2, ev2, hfp, hnil2, hcore2, hlen2, hev2⟩ :=
                ih (ParseState.mk o ot lnl
                  (Frame.mk (FrameData.rtn ri2 t2.dest_state (some t2)) fso2 :: rest2) tb)
                  ht2 hb2 hl2
              refine ⟨s2,
                [{ kind := EventKind.end_rule ri,
                   state := snap (ParseState.mk o ot lnl
                     (Frame.mk (FrameData.rtn ri si tr) fso ::
                       Frame.mk (FrameData.rtn ri2 si2 (some t2)) fso2 :: rest2) tb) }] ++ ev2,
                ?_, hnil2, ?_, ?_, ?_⟩
              · unfold finish_pops
                rw [if_neg (by simp)]
                simp only [pop_rtn_frame, hfp, Option.map_some']
              · exact PreservesCore.trans ⟨rfl, rfl, rfl⟩ hcore2
              · simp at hlen2 ⊢
                all_goals first
                  | omega
                  | simp [hlen2]
              · intro e he
                rcases List.mem_append.mp he with he1 | he1
                · simp at he1
                  subst he1
                  exact ⟨ri, rfl⟩
                · exact hev2 e he1

theorem push_intfa_frame_for_gla_or_rtn_nonempty {g : Grammar} {s s' : ParseState}
    (h : push_intfa_frame_for_gla_or_rtn g s = some s') : s'.parse_stack ≠ [] := by
  unfold push_intfa_frame_for_gla_or_rtn at h
  repeat' split at h
  all_goals try exact Option.noConfusion h
  all_goals simp only [Option.some.injEq] at h
  all_goals subst h
  all_goals simp [push_intfa_frame, push_empty_frame]

theorem intfa_consume_ok_stack {g : Grammar} {fuel : Nat} {s : ParseState} {ch : Nat}
    {t : IntfaTransition} {fi : Nat} {ev : List Event}
    {st' : ParseStatus} {s' : ParseState} {ev' : List Event}
    (h : intfa_consume g fuel s ch t fi ev = some (st', s', ev'))
    (hok : st' = ParseStatus.ok) : s'.parse_stack ≠ [] := by
  subst hok
  simp only [intfa_consume] at h
  repeat' split at h
  all_goals try exact Option.noConfusion h
  · rw [Option.map_eq_some'] at h
    obtain ⟨s4, hpush, hmk⟩ := h
    simp only [Prod.mk.injEq] at hmk
    obtain ⟨-, h2, -⟩ := hmk
    subst h2
    exact push_intfa_frame_for_gla_or_rtn_nonempty hpush
  · simp only [Option.some.injEq, Prod.mk.injEq] at h
    obtain ⟨h1, -, -⟩ := h
    first
      | exact absurd h1 (by assumption)
      | exact absurd h1.symm (by assumption)
  · simp only [Option.some.injEq, Prod.mk.injEq] at h
    obtain ⟨-, h2, -⟩ := h
    subst h2
    simp
  · simp only [Option.some.injEq, Prod.mk.injEq] at h
    obtain ⟨-, h2, -⟩ := h
    subst h2
    simp

theorem intfa_retry_ok_stack {g : Grammar} {fuel ch fi : Nat}
    {r : ParseStatus × ParseState × List Event}
    {st' : ParseStatus} {s' : ParseState} {ev' : List Event}
    (h : intfa_retry g fuel ch fi r = some (st', s', ev'))
    (hok : st' = ParseStatus.ok) : s'.parse_stack ≠ [] := by
  unfold intfa_retry at h
  repeat' split at h
  all_goals try exact Option.noConfusion h
  · simp only [Option.some.injEq, Prod.mk.injEq] at h
    obtain ⟨h1, -, -⟩ := h
    rw [hok] at h1
    exact ParseStatus.noConfusion h1
  · exact intfa_consume_ok_stack h hok
  · simp only [Option.some.injEq, Prod.mk.injEq] at h
    obtain ⟨h1, -, -⟩ := h
    rw [hok] at h1
    first
      | exact absurd h1 (by assumption)
      | exact absurd h1.symm (by assumption)

theorem do_intfa_ok_stack {g : Grammar} {fuel : Nat} {s : ParseState} {ch : Nat}
    {st' : ParseStatus} {s' : ParseState} {ev' : List Event}
    (h : do_intfa_transition g fuel s ch = some (st', s', ev'))
    (hok : st' = ParseStatus.ok) : s'.parse_stack ≠ [] := by
  unfold do_intfa_transition at h
  repeat' split at h
  all_goals try exact Option.noConfusion h
  · exact intfa_consume_ok_stack h hok
  · rw [Option.bind_eq_some] at h
    obtain ⟨r0, -, hr⟩ := h
    exact intfa_retry_ok_stack hr hok

theorem parse_bytes_stuck {g : Grammar} {fuel : Nat} {st : ParseStatus}
    {s : ParseState} (l : List Nat) (h : st ≠ ParseStatus.ok) :
    parse_bytes g fuel st s l = some (st, s, []) := by
  cases l with
  | nil => rfl
  | cons ch rest => simp [parse_bytes, h]

theorem parse_bytes_ok_stack {g : Grammar} {fuel : Nat} : ∀ (l : List Nat)
    {st : ParseStatus} {s s1 : ParseState} {ev : List Event},
    parse_bytes g fuel st s l = some (ParseStatus.ok, s1, ev) →
    s.parse_stack ≠ [] → s1.parse_stack ≠ [] := by
  intro l
  induction l with
  | nil =>
    intro st s s1 ev h hs
    simp only [parse_bytes, Option.some.injEq, Prod.mk.injEq] at h
    obtain ⟨-, h2, -⟩ := h
    subst h2
    exact hs
  | cons ch rest ih =>
    intro st s s1 ev h hs
    by_cases hst : st = ParseStatus.ok
    · subst hst
      rw [parse_bytes, if_pos rfl] at h
      cases hdo : do_intfa_transition g fuel s ch with
      | none =>
        rw [hdo] at h
        exact Option.noConfusion h
      | some r0 =>
        obtain ⟨sti, si, evi⟩ := r0
        rw [hdo, Option.map_eq_some'] at h
        obtain ⟨r, hr, hmk⟩ := h
        obtain ⟨rst, rs, rev⟩ := r
        simp only [Prod.mk.injEq] at hmk
        obtain ⟨h1, h2, -⟩ := hmk
        subst h1 h2
        by_cases hsti : sti = ParseStatus.ok
        · exact ih hr (do_intfa_ok_stack hdo hsti)
        · rw [parse_bytes_stuck rest hsti] at hr
          simp only [Option.some.injEq, Prod.mk.injEq] at hr
          exact absurd hr.1 hsti
    · rw [parse_bytes_stuck (ch :: rest) hst] at h
      simp only [Option.some.injEq, Prod.mk.injEq] at h
      obtain ⟨h1, h2, -⟩ := h
      subst h2
      exact hs

theorem parse_bytes_append {g : Grammar} {fuel : Nat} : ∀ (A : List Nat)
    {B : List Nat} {st st1 st2 : ParseStatus} {s s1 s2 : ParseState}
    {ev1 ev2 : List Event},
    parse_bytes g fuel st s A = some (st1, s1, ev1) →
    parse_bytes g fuel st1 s1 B = some (st2, s2, ev2) →
    parse_bytes g fuel st s (A ++ B) = some (st2, s2, ev1 ++ ev2) := by
  intro A
  induction A with
  | nil =>
    intro B st st1 st2 s s1 s2 ev1 ev2 h1 h2
    simp only [parse_bytes, Option.some.injEq, Prod.mk.injEq] at h1
    obtain ⟨ha, hb, hc⟩ := h1
    subst ha hb hc
    simpa using h2
  | cons ch rest ih =>
    intro B st st1 st2 s s1 s2 ev1 ev2 h1 h2
    by_cases hst : st = ParseStatus.ok
    · subst hst
      rw [parse_bytes, if_pos rfl] at h1
      cases hdo : do_intfa_transition g fuel s ch with
      | none =>
        rw [hdo] at h1
        exact Option.noConfusion h1
      | some r0 =>
        obtain ⟨sti, si, evi⟩ := r0
        rw [hdo, Option.map_eq_some'] at h1
        obtain ⟨r, hr, hmk⟩ := h1
        obtain ⟨rst, rs, rev⟩ := r
        simp only [Prod.mk.injEq] at hmk
        obtain ⟨ha, hb, hc⟩ := hmk
        subst ha hb hc
        have hmid := ih hr h2
        simp [parse_bytes, hdo, hmid]
    · have h1s : parse_bytes g fuel st s (ch :: rest) = some (st, s, []) :=
        parse_bytes_stuck (ch :: rest) hst
      rw [h1s] at h1
      simp only [Option.some.injEq, Prod.mk.injEq] at h1
      obtain ⟨ha, hb, hc⟩ := h1
      subst ha hb hc
      rw [parse_bytes_stuck B hst] at h2
      simp only [Option.some.injEq, Prod.mk.injEq] at h2
      obtain ⟨ha, hb, hc⟩ := h2
      subst ha hb hc
      exact parse_bytes_stuck (ch :: rest ++ B) hst

theorem gzl_parse_ok_stack {g : Grammar} {fuel : Nat} {s s1 : ParseState}
    {A : List Nat} {ev1 : List Event}
    (h : gzl_parse g fuel s A = some (ParseStatus.ok, s1, ev1)) :
    s1.parse_stack ≠ [] := by
  simp only [gzl_parse] at h
  split at h
  · exact Option.noConfusion h
  · split at h
    · simp only [Option.some.injEq, Prod.mk.injEq] at h
      exact ParseStatus.noConfusion h.1
    · rename_i h0
      rw [Option.map_eq_some'] at h
      obtain ⟨r, hr, hmk⟩ := h
      obtain ⟨rst, rs, rev⟩ := r
      simp only [Prod.mk.injEq] at hmk
      obtain ⟨ha, hb, -⟩ := hmk
      subst ha hb
      exact parse_bytes_ok_stack A hr h0

/-! # Claim theorems -/

/-- C1: the claim says `gzl_parse_file` maps `gzl_finish_parse`'s boolean
result directly to the final status (`true ↦ OK`, `false ↦
PREMATURE_EOF_ERROR`).  The code instead returns `PREMATURE_EOF_ERROR` even
when `gzl_finish_parse` returns `true`, whenever the file is at EOF and the
driver's buffer is empty — the successful exact-fit parse.  This theorem
evaluates the driver's post-loop mapping (lines 868-885) at that failing
input. -/
theorem c1_driver_maps_true_to_premature_eof :
    gzl_parse_file_final ParseStatus.ok true true 0 true =
      ParseStatus.premature_eof_error := by
  decide

/-- C2 counterexample: no resource-limit check exists.  The negation of the
claim's operational content: there is no finite stack-depth bound past which
`push_empty_frame` stops growing the stack, and no finite lookahead bound
past which the token-buffer append of `process_terminal` stops growing the
buffer.  (The witnesses inside the proof are concrete states with stacks and
buffers exactly at the putative bound.) -/
theorem c2_counterexample :
    ¬ ((∃ maxStackDepth : Nat, ∀ (s : ParseState) (d : FrameData) (off : Offset),
          maxStackDepth ≤ s.parse_stack.length →
          (push_empty_frame s d off).parse_stack.length ≤ s.parse_stack.length) ∨
       (∃ maxLookahead : Nat, ∀ (s : ParseState) (t : Terminal),
          maxLookahead ≤ s.token_buffer.length →
          (append_terminal s t).token_buffer.length ≤ s.token_buffer.length)) := by
  rintro (⟨D, hD⟩ | ⟨L, hL⟩)
  · have h := hD
      { initState with parse_stack :=
          List.replicate D { data := FrameData.intfa 0 0, start_offset := initState.offset } }
      (FrameData.intfa 0 0) initState.offset (by simp)
    simp [push_empty_frame] at h
  · have h := hL
      { initState with token_buffer :=
          List.replicate L { name := none, offset := initState.offset, len := 0 } }
      { name := none, offset := initState.offset, len := 0 } (by simp)
    simp [append_terminal] at h

/-- C2 amended: the engine imposes no resource limits.  `push_empty_frame`
unconditionally grows the parse stack by one frame, the token-buffer append
of `process_terminal` unconditionally grows the buffer by one entry, the
parse-status enumeration contains no resource-limit value (its six values
are OK, ERROR, CANCELLED, EOF, IO_ERROR, PREMATURE_EOF_ERROR), and
`gzl_init_parse_state` initializes exactly the offset, watermark, newline
flag and the two (empty) arrays — no limit fields exist to install. -/
theorem c2_no_resource_limits :
    (∀ (s : ParseState) (d : FrameData) (off : Offset),
        (push_empty_frame s d off).parse_stack.length = s.parse_stack.length + 1) ∧
    (∀ (s : ParseState) (t : Terminal),
        (append_terminal s t).token_buffer.length = s.token_buffer.length + 1) ∧
    (∀ st : ParseStatus,
        st = ParseStatus.ok ∨ st = ParseStatus.error ∨ st = ParseStatus.cancelled ∨
        st = ParseStatus.eof ∨ st = ParseStatus.io_error ∨
        st = ParseStatus.premature_eof_error) ∧
    (∀ s : ParseState, gzl_init_parse_state s = initState) := by
  refine ⟨fun s d off => by simp [push_empty_frame],
          fun s t => by simp [append_terminal],
          fun st => by cases st <;> simp,
          fun s => rfl⟩

/-- C3: the claim says a byte with no IntFA transition from a non-accepting
state makes the engine fire `error_char` and return `ERROR` with the offset
at the offending byte.  The code instead executes `assert(terminal)` on the
NULL accept label (interpreter.c line 557) — the model's `none` — so the
documented lexical-error path is never reached from a non-accepting state:
here byte `z` (0x7A) from the non-accepting start state of
`strayByteGrammar`'s IntFA. -/
theorem c3_lexical_error_hits_assert :
    gzl_parse strayByteGrammar 20 initState [122] = none := by
  decide

/-- C4 counterexample: feeding LF LF to `gzl_parse` over `nlGrammar` leaves
the line counter at 2 — the second LF's predecessor is a newline byte, so by
the code's rule (and the claim's own first sentence) it does not start a new
line.  The claim's "LF-LF ... count as two line breaks" would require line
3. -/
theorem c4_counterexample :
    (gzl_parse nlGrammar 20 initState [10, 10]).map
        (fun r => r.2.1.offset.line) = some 2 ∧
    (gzl_parse nlGrammar 20 initState [10, 10]).map
        (fun r => r.2.1.offset.line) ≠ some 3 := by
  decide

/-- C4 amended: the per-byte offset rule of `do_intfa_transition` — on a
newline byte (0x0A or 0x0D) whose predecessor was not a newline byte, the
line is incremented and the column reset to 1; on a newline byte whose
predecessor was also a newline byte, line and column are unchanged; on a
non-newline byte the column is incremented (the byte count always advances).
Consequently adjacent CR-LF and LF-CR pairs count as a single line break,
and so do LF-LF and CR-CR: any maximal run of newline bytes is one line
break — as the concrete LF-LF run through `gzl_parse` (final conjunct)
shows. -/
theorem c4_line_column_rule (o : Offset) (lastNl : Bool) (ch : Nat) :
    ((ch = 0x0A ∨ ch = 0x0D) → lastNl = false →
        updateOffsetForChar o lastNl ch =
          ({ byte := o.byte + 1, line := o.line + 1, column := 1 }, true)) ∧
    ((ch = 0x0A ∨ ch = 0x0D) → lastNl = true →
        updateOffsetForChar o lastNl ch = ({ o with byte := o.byte + 1 }, true)) ∧
    (¬(ch = 0x0A ∨ ch = 0x0D) →
        updateOffsetForChar o lastNl ch =
          ({ o with byte := o.byte + 1, column := o.column + 1 }, false)) ∧
    (gzl_parse nlGrammar 20 initState [10, 10]).map
        (fun r => (r.2.1.offset.line, r.2.1.offset.column)) = some (2, 1) := by
  refine ⟨?_, ?_, ?_, by decide⟩
  · intro hnl hl
    subst hl
    simp [updateOffsetForChar, hnl]
  · intro hnl hl
    subst hl
    simp [updateOffsetForChar, hnl]
  · intro hnl
    simp [updateOffsetForChar, hnl]

/-- Witness for C4 amended at concrete inputs: a LF after a non-newline
byte starts line 2, column 1. -/
theorem c4_line_column_rule_witness :
    updateOffsetForChar { byte := 0, line := 1, column := 1 } false 10 =
      ({ byte := 1, line := 2, column := 1 }, true) :=
  (c4_line_column_rule { byte := 0, line := 1, column := 1 } false 10).1
    (Or.inl rfl) rfl

/-- C5: when the top IntFA frame's current state has no transition covering
`ch` but is accepting, `do_intfa_transition` finalizes the lexeme through
`process_terminal` with the accepting state's accept label and length
`offset.byte - frame.start_offset.byte` (the bytes consumed so far, which
exclude `ch`), and continues with `intfa_retry`, which pushes a fresh IntFA
frame selected by the new GLA/RTN top and looks the very same byte `ch` up
in the fresh frame; the second conjunct shows `process_terminal` never
advances the offset, so the retried byte has not been consumed. -/
theorem c5_longest_match_retry (g : Grammar) (fuel : Nat) (s : ParseState)
    (ch : Nat) (f : Frame) (rest : List Frame) (ii si : Nat) (st : IntfaState)
    (nm : Nat)
    (hstack : s.parse_stack = f :: rest)
    (hdata : f.data = FrameData.intfa ii si)
    (hlook : lookupIntfaState g ii si = some st)
    (hno : find_intfa_transition st ch = none)
    (hfin : st.final = some nm) :
    do_intfa_transition g fuel s ch =
      Option.bind
        (process_terminal g fuel s (some nm) f.start_offset
          (s.offset.byte - f.start_offset.byte))
        (intfa_retry g fuel ch (s.parse_stack.length - 1)) ∧
    (∀ st1 s1 ev1,
        process_terminal g fuel s (some nm) f.start_offset
            (s.offset.byte - f.start_offset.byte) = some (st1, s1, ev1) →
        s1.offset = s.offset) := by
  constructor
  · obtain ⟨o, ot, lnl, stk, tb⟩ := s
    simp only at hstack
    subst hstack
    obtain ⟨fd, fso⟩ := f
    simp only at hdata
    subst hdata
    simp only [do_intfa_transition, hlook, hno, hfin]
  · intro st1 s1 ev1 hp
    exact (process_terminal_spec hp).1

/-- Witness for C5 at `zeroLexGrammar` and byte `z`: the IntFA start state
accepts with label 1 and has no transition on 0x7A. -/
theorem c5_longest_match_retry_witness :
    (do_intfa_transition zeroLexGrammar 20 zeroLexState 122 =
      Option.bind
        (process_terminal zeroLexGrammar 20 zeroLexState (some 1)
          ({ data := FrameData.intfa 0 0, start_offset := initState.offset } : Frame).start_offset
          (zeroLexState.offset.byte -
            ({ data := FrameData.intfa 0 0, start_offset := initState.offset } : Frame).start_offset.byte))
        (intfa_retry zeroLexGrammar 20 122 (zeroLexState.parse_stack.length - 1)) ∧
    (∀ st1 s1 ev1,
        process_terminal zeroLexGrammar 20 zeroLexState (some 1)
            ({ data := FrameData.intfa 0 0, start_offset := initState.offset } : Frame).start_offset
            (zeroLexState.offset.byte -
              ({ data := FrameData.intfa 0 0, start_offset := initState.offset } : Frame).start_offset.byte) =
          some (st1, s1, ev1) →
        s1.offset = zeroLexState.offset)) :=
  c5_longest_match_retry zeroLexGrammar 20 zeroLexState 122
    { data := FrameData.intfa 0 0, start_offset := initState.offset }
    [{ data := FrameData.rtn 0 0 none, start_offset := initState.offset }]
    0 0 { final := some 1, transitions := [] } 1
    (by decide) (by decide) (by decide) (by decide) (by decide)

/-- C6 counterexample: at the concrete all-RTN stack `twoFrameState`, the RTN
phase of `gzl_finish_parse` returns `true` (it checks the committed
transition of every frame except the TOP and the current state of the TOP
frame), while the claim's condition — committed-transition destinations
final for every frame except the BOTTOM, and the BOTTOM frame's current
state final — is false there: the top frame has no committed transition and
the bottom frame's current state (state 1) is not final. -/
theorem c6_counterexample :
    (finish_rtn_phase twoStateGrammar 10 twoFrameState).map (fun r => r.1) =
      some true ∧
    ¬ ((twoFrameState.parse_stack.dropLast.all fun fr =>
          match fr.data with
          | FrameData.rtn ri _ (some t) =>
            ((lookupRtnState twoStateGrammar ri t.dest_state).map RtnState.is_final).getD false
          | _ => false) = true ∧
       (match (twoFrameState.parse_stack.getLast?).map Frame.data with
        | some (FrameData.rtn ri si _) =>
          ((lookupRtnState twoStateGrammar ri si).map RtnState.is_final).getD false
        | _ => false) = true) := by
  decide

/-- C7 counterexample: with `zeroLexGrammar`, feeding the byte `z` twice in
two `gzl_parse` calls produces more callbacks (the error state is resumable,
so the second call lexes another zero-length terminal and reports a second
lexical error) than feeding `zz` in one call (which stops at the first
error).  So splitting the input does not always preserve the callback
sequence. -/
theorem c7_counterexample :
    (gzl_parse zeroLexGrammar 20 initState [122]).bind
        (fun r1 => (gzl_parse zeroLexGrammar 20 r1.2.1 [122]).map
          (fun r2 => r1.2.2 ++ r2.2.2)) ≠
      (gzl_parse zeroLexGrammar 20 initState ([122] ++ [122])).map
        (fun r => r.2.2) := by
  decide

/-- C8 counterexample: a call of `process_terminal` that takes the
syntactic-error return (no RTN transition matches the terminal) does NOT end
by compacting the token buffer and updating `open_terminal_offset`: the
routed terminal (offset 5) stays in the buffer and `open_terminal_offset`
remains 0 — neither the first remaining entry's offset (5) nor the current
offset (7), as the claim's update rule would require. -/
theorem c8_counterexample :
    (process_terminal noMatchGrammar 10 noMatchState (some 5)
        { byte := 5, line := 1, column := 6 } 2).map
        (fun r => (r.1, r.2.1.open_terminal_offset, r.2.1.token_buffer)) =
      some (ParseStatus.error, { byte := 0, line := 1, column := 1 },
        [{ name := some 5, offset := { byte := 5, line := 1, column := 6 }, len := 2 }]) ∧
    ({ byte := 0, line := 1, column := 1 } : Offset) ≠ { byte := 5, line := 1, column := 6 } ∧
    ({ byte := 0, line := 1, column := 1 } : Offset) ≠ { byte := 7, line := 1, column := 8 } := by
  decide

/-- C8 amended: every call of `process_terminal` that does not return
through the syntactic-error path ends by dropping all consumed entries from
the token buffer (the final buffer is the entry buffer, extended by the new
terminal, with the prefix before the final RTN cursor dropped) and updating
`open_terminal_offset` to the first remaining entry's offset, or to the
current offset when the buffer becomes empty (the error path leaves buffer
and watermark untouched).  Consequently, if on entry every buffered terminal
and the newly finalized one lie between `open_terminal_offset` and the
current offset, then the watermark invariant `open_terminal_offset ≤ offset
of the oldest buffered terminal ≤ current offset` holds in the state seen by
every callback fired during the call, and again at exit. -/
theorem c8_compaction_and_watermark (g : Grammar) (fuel : Nat) (s : ParseState)
    (term_name : Option Nat) (start : Offset) (len : Nat)
    (st : ParseStatus) (s' : ParseState) (ev : List Event)
    (h : process_terminal g fuel s term_name start len = some (st, s', ev))
    (hwm : ∀ t ∈ s.token_buffer,
        s.open_terminal_offset.byte ≤ t.offset.byte ∧ t.offset.byte ≤ s.offset.byte)
    (hnew : s.open_terminal_offset.byte ≤ start.byte ∧ start.byte ≤ s.offset.byte) :
    s'.offset = s.offset ∧
    (st ≠ ParseStatus.error → ∃ k,
        s'.token_buffer =
          (s.token_buffer ++
            [({ name := term_name, offset := start, len := len } : Terminal)]).drop k ∧
        s'.open_terminal_offset = (match s'.token_buffer.head? with
          | some t => t.offset
          | none => s.offset)) ∧
    (∀ e ∈ ev, ∀ o, e.state.oldest_buffered_offset = some o →
        e.state.open_terminal_offset.byte ≤ o.byte ∧ o.byte ≤ e.state.offset.byte) ∧
    (st ≠ ParseStatus.error → ∀ t, s'.token_buffer.head? = some t →
        s'.open_terminal_offset.byte ≤ t.offset.byte ∧
        t.offset.byte ≤ s'.offset.byte) := by
  obtain ⟨hoff, hev, hcomp⟩ := process_terminal_spec h
  refine ⟨hoff, hcomp, ?_, ?_⟩
  · intro e he o ho
    rw [hev e he] at ho
    rw [hev e he]
    have ho2 : ((s.token_buffer ++
        [({ name := term_name, offset := start, len := len } : Terminal)]).head?).map
        Terminal.offset = some o := ho
    show s.open_terminal_offset.byte ≤ o.byte ∧ o.byte ≤ s.offset.byte
    cases hB : s.token_buffer with
    | nil =>
      rw [hB] at ho2
      simp at ho2
      rw [← ho2]
      exact hnew
    | cons t0 l0 =>
      rw [hB] at ho2
      simp at ho2
      rw [← ho2]
      exact hwm t0 (by rw [hB]; exact List.mem_cons_self t0 l0)
  · intro hne t ht
    obtain ⟨k, hk, hopen⟩ := hcomp hne
    have hmem0 : t ∈ s'.token_buffer := by
      cases hl : s'.token_buffer with
      | nil => rw [hl] at ht; exact Option.noConfusion ht
      | cons a l2 =>
        rw [hl] at ht
        simp only [List.head?_cons, Option.some.injEq] at ht
        subst ht
        exact List.mem_cons_self a l2
    have hmem1 : t ∈ s.token_buffer ++
        [({ name := term_name, offset := start, len := len } : Terminal)] := by
      rw [hk] at hmem0
      exact List.drop_subset _ _ hmem0
    have hle : t.offset.byte ≤ s.offset.byte := by
      rcases List.mem_append.mp hmem1 with hm | hm
      · exact (hwm t hm).2
      · simp at hm
        rw [hm]
        exact hnew.2
    constructor
    · have hopen2 : s'.open_terminal_offset = t.offset := by
        rw [hopen, ht]
      rw [hopen2]
    · rw [hoff]
      exact hle

/-- Witness for C8 amended: a successful `process_terminal` call over
`zeroLexGrammar` from `zeroLexState`, routing a zero-length terminal with
label 1 through the RTN's self-loop. -/
theorem c8_compaction_and_watermark_witness :
    zeroLexState.offset = zeroLexState.offset ∧
    (ParseStatus.ok ≠ ParseStatus.error → ∃ k,
        ([] : List Terminal) =
          (zeroLexState.token_buffer ++
            [({ name := some 1, offset := { byte := 0, line := 1, column := 1 },
                len := 0 } : Terminal)]).drop k ∧
        ({ byte := 0, line := 1, column := 1 } : Offset) =
          (match ([] : List Terminal).head? with
           | some t => t.offset
           | none => zeroLexState.offset)) ∧
    (∀ e ∈ [({ kind := EventKind.terminal
                 { name := some 1, offset := { byte := 0, line := 1, column := 1 }, len := 0 }
               state := { open_terminal_offset := { byte := 0, line := 1, column := 1 }
                          oldest_buffered_offset := some { byte := 0, line := 1, column := 1 }
                          offset := { byte := 0, line := 1, column := 1 } } } : Event)],
        ∀ o, e.state.oldest_buffered_offset = some o →
        e.state.open_terminal_offset.byte ≤ o.byte ∧ o.byte ≤ e.state.offset.byte) ∧
    (ParseStatus.ok ≠ ParseStatus.error → ∀ t, ([] : List Terminal).head? = some t →
        ({ byte := 0, line := 1, column := 1 } : Offset).byte ≤ t.offset.byte ∧
        t.offset.byte ≤ zeroLexState.offset.byte) := by
  have h := c8_compaction_and_watermark zeroLexGrammar 10 zeroLexState (some 1)
    { byte := 0, line := 1, column := 1 } 0 ParseStatus.ok
    { offset := { byte := 0, line := 1, column := 1 }
      open_terminal_offset := { byte := 0, line := 1, column := 1 }
      last_char_was_newline := false
      parse_stack :=
        [{ data := FrameData.rtn 0 0
             (some { edge := RtnEdge.terminal 1, dest_state := 0, slotname := 0, slotnum := 0 })
           start_offset := { byte := 0, line := 1, column := 1 } }]
      token_buffer := [] }
    [{ kind := EventKind.terminal
         { name := some 1, offset := { byte := 0, line := 1, column := 1 }, len := 0 }
       state := { open_terminal_offset := { byte := 0, line := 1, column := 1 }
                  oldest_buffered_offset := some { byte := 0, line := 1, column := 1 }
                  offset := { byte := 0, line := 1, column := 1 } } }]
    (by decide) (by intro t ht; simp [zeroLexState, initState] at ht) (by decide)
  exact h

/-- C9: the claim says reading operand `i` outside the current record sets
the `NO_SUCH_VALUE` error bit and returns 0.  The bounds check of
`bc_rs_read_64` is `i > current_record_size` instead of `i >=`, so at
`i = current_record_size` — one past the last stored operand of a record of
size 1 — the code returns the stale buffer slot (99 here) and leaves the
error bitset empty. -/
theorem c9_read_one_past_record :
    bc_rs_read_64 sampleStream 1 = (sampleStream, 99) ∧
    sampleStream.stream_err = 0 ∧ (99 : Nat) ≠ 0 := by
  decide

/-- C10: the claim says capacity ≥ length holds after every `INIT_DYNARRAY`
and `RESIZE_DYNARRAY`.  `INIT_DYNARRAY` assigns `initial_len` — not its
`initial_size` parameter — to the capacity before rounding, so
`INIT_DYNARRAY(parse_stack, 0, 16)` (as in `gzl_alloc_parse_state`) yields
capacity 0, and the first push's `RESIZE_DYNARRAY(parse_stack, 1)` doubles 0
to 0: length 1 exceeds capacity 0. -/
theorem c10_capacity_below_length :
    (RESIZE_DYNARRAY (INIT_DYNARRAY 0 16) 1).len = 1 ∧
    (RESIZE_DYNARRAY (INIT_DYNARRAY 0 16) 1).size = 0 ∧
    ¬ (RESIZE_DYNARRAY (INIT_DYNARRAY 0 16) 1).len ≤
        (RESIZE_DYNARRAY (INIT_DYNARRAY 0 16) 1).size := by
  decide

/-- C6 (amended): when only RTN frames remain on the stack (each with a
resolvable current state, and each frame below the TOP carrying a committed
transition with a resolvable destination), the RTN phase of
`gzl_finish_parse` succeeds and returns `true` iff the committed
transition of every frame except the TOP (the model list's tail) has a
final destination state and the TOP frame's current state is final; on
`true` it pops every remaining frame, firing `end_rule` once per frame, and
on `false` it leaves the state untouched. -/
theorem c6_rtn_phase_spec (g : Grammar) (fuel : Nat) (s : ParseState)
    (f : Frame) (rest : List Frame) (ri si : Nat) (tr : Option RtnTransition)
    (hstack : s.parse_stack = f :: rest)
    (hf : f.data = FrameData.rtn ri si tr)
    (hlook : (lookupRtnState g ri si).isSome = true)
    (htop : ∀ fr ∈ s.parse_stack, fr.tag = FrameTag.rtn)
    (hbelow : ∀ fr ∈ rest, (match fr.data with
        | FrameData.rtn ri2 _ (some t) => (lookupRtnState g ri2 t.dest_state).isSome
        | _ => false) = true)
    (hfuel : s.parse_stack.length ≤ fuel) :
    ∃ b s' ev, finish_rtn_phase g fuel s = some (b, s', ev) ∧
      (b = true ↔
        ((∀ fr ∈ rest, (match fr.data with
            | FrameData.rtn ri2 _ (some t) =>
              ((lookupRtnState g ri2 t.dest_state).map RtnState.is_final).getD false
            | _ => false) = true) ∧
          ((lookupRtnState g ri si).map RtnState.is_final).getD false = true)) ∧
      (b = true → s'.parse_stack = [] ∧ PreservesCore s s' ∧
        ev.length = s.parse_stack.length ∧
        (∀ e ∈ ev, ∃ r, e.kind = EventKind.end_rule r)) ∧
      (b = false → s' = s ∧ ev = []) := by
  obtain ⟨b0, hcb, hiff⟩ := check_below_top_spec g rest hbelow
  obtain ⟨st0, hlk⟩ := Option.isSome_iff_exists.mp hlook
  cases b0 with
  | false =>
    refine ⟨false, s, [], ?_, ?_, ?_, ?_⟩
    · unfold finish_rtn_phase
      rw [hstack]
      simp only [hcb]
    · constructor
      · intro h
        exact Bool.noConfusion h
      · rintro ⟨h1, h2⟩
        exact Bool.noConfusion (hiff.mpr h1)
    · intro h
      exact Bool.noConfusion h
    · intro _
      exact ⟨rfl, rfl⟩
  | true =>
    cases hfin : st0.is_final with
    | true =>
      have hb2 : ∀ fr ∈ s.parse_stack.tail, (match fr.data with
          | FrameData.rtn _ _ (some _) => true
          | _ => false) = true := by
        rw [hstack]
        intro fr hfr
        have h1 := hbelow fr hfr
        cases hfd : fr.data with
        | rtn ri2 si2 tr2 =>
          rw [hfd] at h1
          cases tr2 with
          | none => simp at h1
          | some t => rfl
        | gla g1 g2 =>
          rw [hfd] at h1
          simp at h1
        | intfa i1 i2 =>
          rw [hfd] at h1
          simp at h1
      obtain ⟨s2, ev2, hfp, hnil2, hcore2, hlen2, hev2⟩ :=
        finish_pops_spec fuel s htop hb2 hfuel
      refine ⟨true, s2, ev2, ?_, ?_, ?_, ?_⟩
      · unfold finish_rtn_phase
        rw [hstack]
        simp [hcb, hf, hlk, hfin, hfp]
      · constructor
        · intro _
          exact ⟨hiff.mp rfl, by simp [hlk, hfin]⟩
        · intro _
          rfl
      · intro _
        exact ⟨hnil2, hcore2, hlen2, hev2⟩
      · intro h
        exact Bool.noConfusion h
    | false =>
      refine ⟨false, s, [], ?_, ?_, ?_, ?_⟩
      · unfold finish_rtn_phase
        rw [hstack]
        simp [hcb, hf, hlk, hfin]
      · constructor
        · intro h
          exact Bool.noConfusion h
        · rintro ⟨h1, h2⟩
          simp [hlk, hfin] at h2
      · intro h
        exact Bool.noConfusion h
      · intro _
        exact ⟨rfl, rfl⟩

theorem c6_rtn_phase_spec_witness :
    ∃ b s' ev, finish_rtn_phase twoStateGrammar 5 oneFrameState = some (b, s', ev) ∧
      (b = true ↔
        ((∀ fr ∈ ([] : List Frame), (match fr.data with
            | FrameData.rtn ri2 _ (some t) =>
              ((lookupRtnState twoStateGrammar ri2 t.dest_state).map
                RtnState.is_final).getD false
            | _ => false) = true) ∧
          ((lookupRtnState twoStateGrammar 0 0).map RtnState.is_final).getD false = true)) ∧
      (b = true → s'.parse_stack = [] ∧ PreservesCore oneFrameState s' ∧
        ev.length = oneFrameState.parse_stack.length ∧
        (∀ e ∈ ev, ∃ r, e.kind = EventKind.end_rule r)) ∧
      (b = false → s' = oneFrameState ∧ ev = []) :=
  c6_rtn_phase_spec twoStateGrammar 5 oneFrameState
    ({ data := FrameData.rtn 0 0 none, start_offset := initState.offset } : Frame)
    [] 0 0 none
    (by decide) (by decide) (by decide) (by decide) (by decide) (by decide)


/-- C7 (amended): splitting the input is transparent when the first call
succeeds — if feeding `A` to a parse state returns `OK`, then feeding `B` to
the resulting state produces exactly the callbacks and final state that
feeding `A ++ B` in one `gzl_parse` call would have produced after those of
`A` (when the first call returns a non-`OK` status the parse stops mid-buffer
and the two ways of feeding the input can diverge). -/
theorem c7_split_resume (g : Grammar) (fuel : Nat) (s : ParseState)
    (A B : List Nat) (s1 : ParseState) (ev1 : List Event)
    (st2 : ParseStatus) (s2 : ParseState) (ev2 : List Event)
    (h1 : gzl_parse g fuel s A = some (ParseStatus.ok, s1, ev1))
    (h2 : gzl_parse g fuel s1 B = some (st2, s2, ev2)) :
    gzl_parse g fuel s (A ++ B) = some (st2, s2, ev1 ++ ev2) := by
  have hs1 : s1.parse_stack ≠ [] := gzl_parse_ok_stack h1
  have hP1 : ¬(s1.offset.byte = 0 ∧ s1.parse_stack = []) := fun hc => hs1 hc.2
  simp only [gzl_parse, if_neg hP1, if_neg hs1, Option.map_eq_some'] at h2
  obtain ⟨rB, hrB, hmkB⟩ := h2
  obtain ⟨rBst, rBs, rBev⟩ := rB
  simp only [Prod.mk.injEq, List.nil_append] at hmkB
  obtain ⟨hb1, hb2, hb3⟩ := hmkB
  subst hb1 hb2 hb3
  by_cases hP : s.offset.byte = 0 ∧ s.parse_stack = []
  · simp only [gzl_parse, if_pos hP] at h1 ⊢
    cases hinit : gzl_parse_init g fuel s with
    | none =>
      rw [hinit] at h1
      exact Option.noConfusion h1
    | some r0 =>
      obtain ⟨st0, s0, ev0⟩ := r0
      simp only [hinit] at h1 ⊢
      by_cases h0 : s0.parse_stack = []
      · rw [if_pos h0] at h1
        simp only [Option.some.injEq, Prod.mk.injEq] at h1
        exact ParseStatus.noConfusion h1.1
      · rw [if_neg h0] at h1 ⊢
        rw [Option.map_eq_some'] at h1
        obtain ⟨rA, hrA, hmkA⟩ := h1
        obtain ⟨rAst, rAs, rAev⟩ := rA
        simp only [Prod.mk.injEq] at hmkA
        obtain ⟨ha1, ha2, ha3⟩ := hmkA
        subst ha1 ha2 ha3
        have hall := parse_bytes_append A hrA hrB
        rw [hall]
        simp
  · simp only [gzl_parse, if_neg hP] at h1 ⊢
    by_cases h0 : s.parse_stack = []
    · rw [if_pos h0] at h1
      simp only [Option.some.injEq, Prod.mk.injEq] at h1
      exact ParseStatus.noConfusion h1.1
    · rw [if_neg h0] at h1 ⊢
      rw [Option.map_eq_some'] at h1
      obtain ⟨rA, hrA, hmkA⟩ := h1
      obtain ⟨rAst, rAs, rAev⟩ := rA
      simp only [Prod.mk.injEq, List.nil_append] at hmkA
      obtain ⟨ha1, ha2, ha3⟩ := hmkA
      subst ha1 ha2 ha3
      have hall := parse_bytes_append A hrA hrB
      rw [hall]
      simp

theorem c7_split_resume_witness :
    gzl_parse nlGrammar 20 initState ([10] ++ [10]) =
      some (ParseStatus.ok, nlEndState, nlEvFirst ++ nlEvSecond) :=
  c7_split_resume nlGrammar 20 initState [10] [10] nlMidState nlEvFirst
    ParseStatus.ok nlEndState nlEvSecond (by decide) (by decide)

end Gazelle
